import Mathlib

/-!
Verification of the combinatorial triangulation data structure
(`Triangulation_data_structure.h`) against its specification.

The embedding models handles as natural-number identifiers (`none` at the
API level models the null handle).  Vertex and full-cell pools are
association lists from identifier to record, kept in insertion order, with
monotonically increasing fresh identifiers.  The per-cell `visited`
scratch bit (bit 0 of `tds_data`) is represented by the set of cell
identifiers whose bit is set.  Fallible code (null-handle dereferences,
lookups of erased handles, `CGAL_precondition` failures) runs in
`Except Err`; breadth-first loops take an explicit fuel argument whose
sufficiency is proved where needed.
-/

namespace TDS

/-- Decidable equality for `Except` results (needed to settle concrete
runs by `decide`). -/
instance instDecEqExcept {e a : Type} [DecidableEq e] [DecidableEq a] :
    DecidableEq (Except e a) := fun x y =>
  match x, y with
  | .error u, .error v =>
    if h : u = v then .isTrue (by rw [h])
    else .isFalse (fun hh => Except.noConfusion hh (fun he => h he))
  | .ok u, .ok v =>
    if h : u = v then .isTrue (by rw [h])
    else .isFalse (fun hh => Except.noConfusion hh (fun he => h he))
  | .error _, .ok _ => .isFalse (fun hh => Except.noConfusion hh)
  | .ok _, .error _ => .isFalse (fun hh => Except.noConfusion hh)

/-- Error outcomes of the embedded operations: `precond` models a
`CGAL_precondition` failure (a loudly reported programming error),
`badHandle` models dereferencing a null or dangling handle (undefined
behaviour in the source), `fuel` is an artifact of the fuel-based
embedding of the unbounded loops. -/
inductive Err where
  | precond
  | badHandle
  | fuel
deriving DecidableEq, Repr

/-- A full-cell record.  Modelled from the spec: the class
`Triangulation_ds_full_cell` is not under `src/`; per the data model a
full cell has vertex slots (`vertex[i]`, possibly null), neighbor slots
(`neighbor[i]`, possibly null) and mirror indices (`mirror_index[i]`,
initialized to -1 as witnessed by `read_full_cells`).  Slots are total
functions on `Int` so that a record does not depend on the ambient
dimension; only slots `0 .. current_dimension` are ever read. -/
structure Cell where
  vertexSlot : Int → Option Nat
  neighborSlot : Int → Option Nat
  mirrorSlot : Int → Int

/-- A vertex record: an opaque payload (not modelled) plus the
back-reference `full_cell()` to one incident full cell. -/
structure VertexRec where
  fullCell : Option Nat

/-- The triangulation data structure: current dimension `dcur_`, the two
pools, the set of cells whose `visited` bit is set, and the next fresh
identifiers.  The ambient dimension `dmax_` is passed as an explicit
argument to the operations that consult it. -/
structure T where
  dcur : Int
  vertices : List (Nat × VertexRec)
  cells : List (Nat × Cell)
  visited : Finset Nat
  nextV : Nat
  nextC : Nat

/-- Association-list lookup by identifier. -/
def lookup (l : List (Nat × α)) (k : Nat) : Option α :=
  (l.find? (fun p => p.1 == k)).map Prod.snd

/-- Association-list pointwise update (identity off `k`). -/
def updateEntry (l : List (Nat × α)) (k : Nat) (f : α → α) : List (Nat × α) :=
  l.map (fun p => if p.1 = k then (p.1, f p.2) else p)

/-- The list of live cell identifiers. -/
def cellIds (t : T) : List Nat := t.cells.map Prod.fst

def getCell (t : T) (s : Nat) : Except Err Cell :=
  match lookup t.cells s with
  | some c => .ok c
  | none => .error .badHandle

def getVtx (t : T) (v : Nat) : Except Err VertexRec :=
  match lookup t.vertices v with
  | some r => .ok r
  | none => .error .badHandle

/-- Dereference a handle-valued slot: `none` is the null handle. -/
def deref (x : Option Nat) : Except Err Nat :=
  match x with
  | some v => .ok v
  | none => .error .badHandle

/-- `check_range(i)`: when the current dimension is negative only the
index 0 is accepted, otherwise `0 <= i && i <= current_dimension()`. -/
def check_range (dcur : Int) (i : Int) : Bool :=
  if dcur < 0 then i == 0 else (0 ≤ i && i ≤ dcur)

def number_of_vertices (t : T) : Nat := t.vertices.length

def number_of_full_cells (t : T) : Nat := t.cells.length

/-- `vertex(s, i)` on an internal (non-null) cell handle: the
`CGAL_precondition` checks `check_range(i)`; the body reads the slot. -/
def vertexA (t : T) (s : Nat) (i : Int) : Except Err (Option Nat) :=
  if check_range t.dcur i then (getCell t s).map (fun c => c.vertexSlot i)
  else .error .precond

def neighborA (t : T) (s : Nat) (i : Int) : Except Err (Option Nat) :=
  if check_range t.dcur i then (getCell t s).map (fun c => c.neighborSlot i)
  else .error .precond

def mirror_indexA (t : T) (s : Nat) (i : Int) : Except Err Int :=
  if check_range t.dcur i then (getCell t s).map (fun c => c.mirrorSlot i)
  else .error .precond

/-- `vertex(s, i)` at the public interface, where `s` may be the null
handle: `CGAL_precondition(s != Full_cell_handle() && check_range(i))`. -/
def vertexQ (t : T) (s : Option Nat) (i : Int) : Except Err (Option Nat) :=
  match s with
  | none => .error .precond
  | some sid => vertexA t sid i

def neighborQ (t : T) (s : Option Nat) (i : Int) : Except Err (Option Nat) :=
  match s with
  | none => .error .precond
  | some sid => neighborA t sid i

def mirror_indexQ (t : T) (s : Option Nat) (i : Int) : Except Err Int :=
  match s with
  | none => .error .precond
  | some sid => mirror_indexA t sid i

-- visited bits

def get_visited (t : T) (c : Nat) : Bool := c ∈ t.visited

def set_visited (t : T) (c : Nat) (m : Bool) : T :=
  { t with visited := if m then insert c t.visited else t.visited.erase c }

-- primitive mutators

def Cell.setVertex (c : Cell) (i : Int) (v : Option Nat) : Cell :=
  { c with vertexSlot := Function.update c.vertexSlot i v }

def Cell.setNeighbor (c : Cell) (i : Int) (n : Option Nat) : Cell :=
  { c with neighborSlot := Function.update c.neighborSlot i n }

def Cell.setMirror (c : Cell) (i : Int) (m : Int) : Cell :=
  { c with mirrorSlot := Function.update c.mirrorSlot i m }

/-- `swap_vertices(i, j)`.  Modelled from the spec: the full-cell class is
not under `src/`; the spec describes the operation as exchanging the two
vertex slots. -/
def Cell.swapVertices (c : Cell) (i j : Int) : Cell :=
  { c with vertexSlot := fun k =>
      if k = i then c.vertexSlot j
      else if k = j then c.vertexSlot i
      else c.vertexSlot k }

/-- An all-null fresh cell record (`new_full_cell()` initializes vertex
and neighbor slots to null, mirror indices to -1). -/
def blankCell : Cell :=
  { vertexSlot := fun _ => none, neighborSlot := fun _ => none, mirrorSlot := fun _ => -1 }

def new_vertex (t : T) : T × Nat :=
  ({ t with vertices := t.vertices ++ [(t.nextV, VertexRec.mk none)],
            nextV := t.nextV + 1 }, t.nextV)

def new_full_cell (t : T) : T × Nat :=
  ({ t with cells := t.cells ++ [(t.nextC, blankCell)], nextC := t.nextC + 1 }, t.nextC)

/-- `new_full_cell(s)`: copy-construct from `*s` (the copy constructor of
the full cell also copies the `tds_data` bits, hence the `visited`
membership is copied as well). -/
def new_full_cell_from (t : T) (s : Nat) : Except Err (T × Nat) := do
  let c ← getCell t s
  let t2 : T :=
    { t with cells := t.cells ++ [(t.nextC, c)],
             visited := (if s ∈ t.visited then insert t.nextC t.visited else t.visited),
             nextC := t.nextC + 1 }
  .ok (t2, t.nextC)

def delete_full_cell (t : T) (s : Nat) : T :=
  { t with cells := t.cells.filter (fun p => p.1 ≠ s), visited := t.visited.erase s }

def delete_full_cells (t : T) (l : List Nat) : T :=
  l.foldl delete_full_cell t

def delete_vertex (t : T) (v : Nat) : T :=
  { t with vertices := t.vertices.filter (fun p => p.1 ≠ v) }

def modifyCell (t : T) (s : Nat) (f : Cell → Cell) : Except Err T :=
  match lookup t.cells s with
  | some _ => .ok { t with cells := updateEntry t.cells s f }
  | none => .error .badHandle

def modifyVertex (t : T) (v : Nat) (f : VertexRec → VertexRec) : Except Err T :=
  match lookup t.vertices v with
  | some _ => .ok { t with vertices := updateEntry t.vertices v f }
  | none => .error .badHandle

/-- `associate_vertex_with_full_cell(s, i, v)`: precondition
`check_range(i)` and non-null handles; sets `s->vertex(i) = v`
and `v->full_cell = s`. -/
def associate_vertex_with_full_cell (t : T) (s : Nat) (i : Int) (v : Nat) :
    Except Err T := do
  if ¬ check_range t.dcur i then .error .precond
  else
    let t1 ← modifyCell t s (fun c => c.setVertex i (some v))
    modifyVertex t1 v (fun _ => { fullCell := some s })

/-- `v->set_full_cell(s)` (used directly by `insert_in_full_cell`). -/
def set_full_cell_of_vertex (t : T) (v : Nat) (s : Nat) : Except Err T :=
  modifyVertex t v (fun _ => { fullCell := some s })

/-- `set_neighbors(s, i, s1, j)`: preconditions `check_range(i)`,
`check_range(j)`, non-null handles; establishes the symmetric link and
both mirror indices. -/
def set_neighbors (t : T) (s : Nat) (i : Int) (s1 : Nat) (j : Int) :
    Except Err T := do
  if ¬ (check_range t.dcur i ∧ check_range t.dcur j) then .error .precond
  else
    let t1 ← modifyCell t s (fun c => (c.setNeighbor i (some s1)).setMirror i j)
    modifyCell t1 s1 (fun c => (c.setNeighbor j (some s)).setMirror j i)

/-- `set_current_dimension(d)`: precondition `-1 <= d && d <= dmax`. -/
def set_current_dimension (dmax : Int) (t : T) (d : Int) : Except Err T :=
  if -1 ≤ d ∧ d ≤ dmax then .ok { t with dcur := d } else .error .precond

-- face / facet / rotor algebra

/-- A facet: (full cell, covertex index). -/
abbrev Facet := Nat × Int

/-- A rotor: (full cell, covertex index, second covertex index). -/
abbrev Rotor := Nat × Int × Int

def full_cell_of_rotor (r : Rotor) : Nat := r.1
def index_of_covertex_rotor (r : Rotor) : Int := r.2.1
def index_of_second_covertex (r : Rotor) : Int := r.2.2

def full_cell_of_facet (f : Facet) : Nat := f.1
def index_of_covertex (f : Facet) : Int := f.2

/-- `is_boundary_facet(f)` (for facets): false when the neighbor beyond
the facet is visited, false when the facet cell itself is unvisited,
true otherwise. -/
def is_boundary_facet (t : T) (f : Facet) : Except Err Bool := do
  let n ← deref (← neighborA t f.1 f.2)
  if get_visited t n then .ok false
  else if ¬ get_visited t f.1 then .ok false
  else .ok true

/-- `s->index(v)`: the slot of `s` holding vertex `v`.  Modelled from the
spec: the full-cell class is not under `src/`; per the spec this is the
index of the given vertex among the cell's `(d+1)` vertex slots (a
precondition failure if absent). -/
def slotList (d : Int) : List Int :=
  (List.range (d + 1).toNat).map Int.ofNat

def cellIndexOfVertex (t : T) (s : Nat) (v : Nat) : Except Err Int := do
  let c ← getCell t s
  match (slotList t.dcur).find? (fun i => c.vertexSlot i == some v) with
  | some i => .ok i
  | none => .error .badHandle

/-- `s->has_vertex(v)`. Modelled from the spec (full-cell class not under
`src/`): whether `v` occupies one of the cell's vertex slots. -/
def cellHasVertex (c : Cell) (dcur : Int) (v : Nat) : Bool :=
  (slotList dcur).any (fun i => c.vertexSlot i == some v)

/-- `rotate_rotor(f)`:
`opposite = mirror_index(full_cell(f), index_of_covertex(f))`,
`s = neighbor(full_cell(f), index_of_covertex(f))`,
`new_second = s->index(vertex(full_cell(f), index_of_second_covertex(f)))`,
returning `Rotor(s, new_second, opposite)`. -/
def rotate_rotor (t : T) (f : Rotor) : Except Err Rotor := do
  let opposite ← mirror_indexA t (full_cell_of_rotor f) (index_of_covertex_rotor f)
  let s ← deref (← neighborA t (full_cell_of_rotor f) (index_of_covertex_rotor f))
  let v ← deref (← vertexA t (full_cell_of_rotor f) (index_of_second_covertex f))
  let newSecond ← cellIndexOfVertex t s v
  .ok (s, newSecond, opposite)

end TDS

namespace TDS

-- - - - - - - - - - - - - - - - - - - - - - - - - - - - FULL CELL GATHERING

/-- `[0 .. d-1]` as `Int` indices (the `for k = 0; k < d` loops). -/
def rangeTo (d : Int) : List Int := slotList (d - 1)

/-- The facet loop body of `gather_full_cells` for one dequeued cell `s`:
for each `i <= cur_dim`, read `n = s->neighbor(i)`; if `n` is unvisited,
mark it, then enqueue it when the predicate crosses the facet, otherwise
remember `(s, i)` as the last-seen boundary facet. -/
def gatherStep (t : T) (pred : Nat → Int → Bool) (s : Nat) :
    List Int → Finset Nat → List Nat → Option Facet →
    Except Err (Finset Nat × List Nat × Option Facet)
  | [], vis, adds, ft => .ok (vis, adds, ft)
  | i :: rest, vis, adds, ft => do
    let c ← getCell t s
    let n ← deref (c.neighborSlot i)
    if n ∉ vis then
      if pred s i then gatherStep t pred s rest (insert n vis) (adds ++ [n]) ft
      else gatherStep t pred s rest (insert n vis) adds (some (s, i))
    else gatherStep t pred s rest vis adds ft

/-- The breadth-first queue loop of `gather_full_cells` (fuel-based). -/
def gatherLoop (t : T) (pred : Nat → Int → Bool) :
    Nat → List Nat → Finset Nat → List Nat → Option Facet →
    Except Err (List Nat × Option Facet × Finset Nat)
  | 0, _, _, _, _ => .error .fuel
  | _ + 1, [], vis, out, ft => .ok (out, ft, vis)
  | fuel + 1, s :: q, vis, out, ft => do
    let r ← gatherStep t pred s (slotList t.dcur) vis [] ft
    gatherLoop t pred fuel (q ++ r.2.1) r.1 (out ++ [s]) r.2.2

/-- The facet loop body of `clear_visited_marks` for one dequeued cell. -/
def clearStep (t : T) (s : Nat) :
    List Int → Finset Nat → List Nat → Except Err (Finset Nat × List Nat)
  | [], vis, adds => .ok (vis, adds)
  | i :: rest, vis, adds => do
    let c ← getCell t s
    let n ← deref (c.neighborSlot i)
    if n ∈ vis then clearStep t s rest (vis.erase n) (adds ++ [n])
    else clearStep t s rest vis adds

/-- The breadth-first queue loop of `clear_visited_marks` (fuel-based). -/
def clearLoop (t : T) :
    Nat → List Nat → Finset Nat → Except Err (Finset Nat)
  | 0, _, _ => .error .fuel
  | _ + 1, [], vis => .ok vis
  | fuel + 1, s :: q, vis => do
    let r ← clearStep t s (slotList t.dcur) vis []
    clearLoop t fuel (q ++ r.2) r.1

/-- `clear_visited_marks(start)`: re-walk from `start` over the marked
cells and clear every bit. -/
def clear_visited_marks (t : T) (start : Nat) : Except Err T := do
  let t1 := set_visited t start false
  let vis ← clearLoop t1 (t.visited.card + 2) [start] t1.visited
  .ok { t1 with visited := vis }

/-- `gather_full_cells(start, tp, out)`: mark and enqueue `start`, run the
BFS collecting the output cells and the last-seen boundary facet, then
clear the visited marks by a second walk from `start`. -/
def gather_full_cells (t : T) (pred : Nat → Int → Bool) (start : Nat) :
    Except Err (List Nat × Option Facet × T) := do
  let t1 := set_visited t start true
  let r ← gatherLoop t1 pred (t1.cells.length + 2) [start] t1.visited [] none
  let t2 : T := { t1 with visited := r.2.2 }
  let t3 ← clear_visited_marks t2 start
  .ok (r.1, r.2.1, t3)

-- Faces and the two traversal predicates

/-- A `Face`: a full cell plus the ordered list of slot indices spanning
the sub-simplex (feature dimension = number of indices minus one). -/
structure Face where
  fullCell : Nat
  indices : List Int
deriving DecidableEq, Repr

/-- `f.vertex(k)` = `f.full_cell()->vertex(f.index(k))` (null on a
malformed face, where the source would have undefined behaviour). -/
def faceVertex (t : T) (f : Face) (k : Nat) : Option Nat :=
  match f.indices.get? k with
  | none => none
  | some idx =>
    match lookup t.cells f.fullCell with
    | none => none
    | some c => c.vertexSlot idx

/-- `Incident_full_cell_traversal_predicate`: cross facet `(s, i)` iff the
covertex `s->vertex(i)` is not among the face's vertices. -/
def incidentPredicate (t : T) (f : Face) (s : Nat) (i : Int) : Bool :=
  match (lookup t.cells s).bind (fun c => c.vertexSlot i) with
  | none => false
  | some v => (List.range f.indices.length).all (fun k => faceVertex t f k != some v)

/-- `Star_traversal_predicate`: cross facet `(s, i)` iff the neighbor
beyond it still holds some vertex of the face. -/
def starPredicate (t : T) (f : Face) (s : Nat) (i : Int) : Bool :=
  match (lookup t.cells s).bind (fun c => c.neighborSlot i) with
  | none => false
  | some n =>
    match lookup t.cells n with
    | none => false
    | some nc =>
      (slotList t.dcur).any (fun j =>
        (List.range f.indices.length).any (fun k => nc.vertexSlot j == faceVertex t f k))

/-- `incident_full_cells(f, out)`. -/
def incident_full_cells (t : T) (f : Face) : Except Err (List Nat × T) := do
  let r ← gather_full_cells t (incidentPredicate t f) f.fullCell
  .ok (r.1, r.2.2)

/-- `incident_full_cells(v, out)`: form the 0-face from the vertex's
back-reference and gather. -/
def incident_full_cells_of_vertex (t : T) (v : Nat) : Except Err (List Nat × T) := do
  let r ← getVtx t v
  let s ← deref r.fullCell
  let idx ← cellIndexOfVertex t s v
  incident_full_cells t (Face.mk s [idx])

/-- `star(f, out)`. -/
def star_cells (t : T) (f : Face) : Except Err (List Nat × T) := do
  let r ← gather_full_cells t (starPredicate t f) f.fullCell
  .ok (r.1, r.2.2)

end TDS

namespace TDS

-- - - - - - - - - - - - - - - - - - - - - - - - - - - - INCIDENT FACES

/-- Insertion sort by a boolean comparator (the shape of `std::sort` on
the cell's vertex handles; ties/incomparables keep list order). -/
def insertSorted (cmp : Nat → Nat → Bool) (x : Nat) : List Nat → List Nat
  | [] => [x]
  | y :: ys => if cmp x y then x :: y :: ys else y :: insertSorted cmp x ys

def sortBy (cmp : Nat → Nat → Bool) : List Nat → List Nat
  | [] => []
  | x :: xs => insertSorted cmp x (sortBy cmp xs)

/-- `[lo .. hi]` as `Int` values. -/
def intRangeList (lo hi : Int) : List Int :=
  (List.range (hi + 1 - lo).toNat).map (fun n => lo + (n : Int))

/-- `Combination_enumerator(k, lo, hi)`.  Modelled from the spec: the
enumerator class lives under `internal/` and is not under `src/`; per the
spec it enumerates, lexicographically, the strictly increasing k-tuples
from `[lo, hi]`. -/
def combinationList : Nat → Int → Int → List (List Int)
  | 0, _, _ => [[]]
  | k + 1, lo, hi =>
    (intRangeList lo hi).flatMap (fun x => (combinationList k (x + 1) hi).map (fun r => x :: r))

/-- The canonical key of an enumerated face: its vertex handles in index
order (cell-independent, hence deduplicating). -/
def faceKey (t : T) (f : Face) : List (Option Nat) :=
  f.indices.map (fun idx =>
    match lookup t.cells f.fullCell with
    | none => none
    | some c => c.vertexSlot idx)

/-- Lexicographic strict order on face keys induced by the vertex
comparator; `none` (never produced on valid runs) sorts first. -/
def keyLt (cmp : Nat → Nat → Bool) : List (Option Nat) → List (Option Nat) → Bool
  | [], [] => false
  | [], _ :: _ => true
  | _ :: _, [] => false
  | a :: as, b :: bs =>
    match a, b with
    | none, none => keyLt cmp as bs
    | none, some _ => true
    | some _, none => false
    | some x, some y => if cmp x y then true else if cmp y x then false else keyLt cmp as bs

/-- Ordered, key-deduplicating insertion into the face set.  Modelled from
the spec: the comparator `Compare_faces_with_common_first_vertex` lives
under `internal/` and is not under `src/`; per the spec the set is keyed
by the (cell-independent) sorted-vertex tuple and emitted in order. -/
def faceSetInsert (t : T) (cmp : Nat → Nat → Bool) (f : Face) :
    List Face → List Face
  | [] => [f]
  | g :: gs =>
    if faceKey t f = faceKey t g then g :: gs
    else if keyLt cmp (faceKey t f) (faceKey t g) then f :: g :: gs
    else g :: faceSetInsert t cmp f gs

/-- The per-cell body of `incident_faces`: sort the cell's vertices,
locate `v`, skip the cell when `v` sits too far right, then enumerate
every combination of `d` sorted positions beyond `v` as a face. -/
def incidentFacesCell (t : T) (v : Nat) (d : Nat) (cmp : Nat → Nat → Bool)
    (upper_faces : Bool) (s : Nat) (acc : List Face) : Except Err (List Face) := do
  let c ← getCell t s
  -- vertices[i] = s->vertex(i), i = 0 .. current_dimension()
  let verts0 ← (slotList t.dcur).foldlM
    (fun (l : List Nat) i => do
      let w ← deref (c.vertexSlot i)
      pure (l ++ [w])) []
  let sorted :=
    if upper_faces then sortBy cmp verts0
    else
      match verts0.findIdx? (fun w => w == v) with
      | none => verts0
      | some k =>
        let swapped := if k ≠ 0 then (verts0.set k (verts0.headI)).set 0 v else verts0
        match swapped with
        | [] => []
        | h :: rest => h :: sortBy cmp rest
  let vIdx ←
    match sorted.findIdx? (fun w => w == v) with
    | some k => pure k
    | none => .error .badHandle
  if (vIdx : Int) + d > t.dcur then pure acc
  else do
    -- sorted_idx[i] = s->index(sorted[i])
    let sortedIdx ← sorted.foldlM
      (fun (l : List Int) w => do
        let ix ← cellIndexOfVertex t s w
        pure (l ++ [ix])) []
    let combos := combinationList d ((vIdx : Int) + 1) t.dcur
    let faces := combos.map (fun combo =>
      Face.mk s ((vIdx : Int) :: combo.map (fun p => sortedIdx.getD p.toNat 0)))
    pure (faces.foldl (fun a f => faceSetInsert t cmp f a) acc)

/-- `incident_faces(v, d, out, cmp, upper_faces)`: precondition `0 < d`;
returns at once when `d >= current_dimension()`; otherwise gathers the
full cells incident to `v` and enumerates their k-faces through `v`,
deduplicated and ordered by the sorted-vertex key. -/
def incident_faces (t : T) (v : Nat) (d : Int) (cmp : Nat → Nat → Bool)
    (upper_faces : Bool) : Except Err (List Face) := do
  if ¬ (0 < d) then .error .precond
  else if d ≥ t.dcur then .ok []
  else do
    let (simps, _) ← incident_full_cells_of_vertex t v
    simps.foldlM (fun acc s => incidentFacesCell t v d.toNat cmp upper_faces s acc) []

end TDS

namespace TDS

-- - - - - - - - - - - - - - - - - - - - - - - - - - - - HOLE INSERTION

/-- Dereference guarded by a `CGAL_precondition` on the callee side (a
null handle is reported as a precondition failure, e.g. the handle
arguments of `set_neighbors` / `associate_vertex_with_full_cell`). -/
def derefP (x : Option Nat) : Except Err Nat :=
  match x with
  | some v => .ok v
  | none => .error .precond

/-- `is_boundary_facet` applied to a rotor (the template version reads
the first two components, exactly as for a facet). -/
def is_boundary_facet_of_rotor (t : T) (r : Rotor) : Except Err Bool :=
  is_boundary_facet t (full_cell_of_rotor r, index_of_covertex_rotor r)

/-- `while (!is_boundary_facet(rot)) rot = rotate_rotor(rot)` (fuel-based). -/
def rotorLoop (t : T) : Nat → Rotor → Except Err Rotor
  | 0, _ => .error .fuel
  | fuel + 1, rot => do
    let b ← is_boundary_facet_of_rotor t rot
    if b then .ok rot
    else do
      let rot2 ← rotate_rotor t rot
      rotorLoop t fuel rot2

/-- `s->mirror_vertex(i, cur_dim)`.  Modelled from the spec: the
full-cell class is not under `src/`; per the spec this is the vertex of
the neighbor beyond facet `i` opposite the shared facet, i.e.
`neighbor(i)->vertex(mirror_index(i))`. -/
def mirror_vertex (t : T) (s : Nat) (i : Int) : Except Err Nat := do
  let c ← getCell t s
  let n ← deref (c.neighborSlot i)
  let nc ← getCell t n
  deref (nc.vertexSlot (c.mirrorSlot i))

mutual

/-- `insert_in_tagged_hole(v, f, out)`: build the new cell over the
boundary facet `f`, link it outward, then resolve each remaining facet of
the new cell by rotating around the ridge inside the hole, recursing when
the matching new cell does not exist yet.  Returns the updated state, the
new cell over `f`, and the emitted new cells in output order.  `fuel`
bounds the recursion depth (one level per boundary facet). -/
def insert_in_tagged_hole_go (t : T) (rotFuel : Nat) (v : Nat) (f : Facet)
    (fuel : Nat) : Except Err (T × Nat × List Nat) :=
  match fuel with
  | 0 => .error .fuel
  | fuel' + 1 => do
    let b ← is_boundary_facet t f
    if ¬ b then .error .precond
    else do
      let cur := t.dcur
      let old_s := full_cell_of_facet f
      let (t1, new_s) := new_full_cell t
      let facet_index := index_of_covertex f
      let t2 ← ((slotList cur).filter (fun i => i ≠ facet_index)).foldlM
        (fun acc i => do
          let c ← getCell acc old_s
          let vi ← derefP (c.vertexSlot i)
          associate_vertex_with_full_cell acc new_s i vi) t1
      let t3 ← associate_vertex_with_full_cell t2 new_s facet_index v
      let nb ← derefP (← neighborA t3 old_s facet_index)
      let mi ← mirror_indexA t3 old_s facet_index
      let t4 ← set_neighbors t3 new_s facet_index nb mi
      let r ← insert_in_tagged_hole_loop t4 rotFuel v old_s new_s facet_index
        ((slotList cur).filter (fun i => i ≠ facet_index)) fuel'
      .ok (r.1, new_s, new_s :: r.2)
termination_by (fuel, 0, 0)

/-- The facet loop of `insert_in_tagged_hole` over the indices `i` other
than the starting covertex. -/
def insert_in_tagged_hole_loop (t : T) (rotFuel : Nat) (v : Nat)
    (old_s new_s : Nat) (facet_index : Int) (l : List Int) (fuel : Nat) :
    Except Err (T × List Nat) :=
  match l with
  | [] => .ok (t, [])
  | i :: rest => do
    let rot ← rotorLoop t rotFuel (old_s, i, facet_index)
    let outside ← deref (← neighborA t (full_cell_of_rotor rot) (index_of_covertex_rotor rot))
    let inside := full_cell_of_rotor rot
    let m ← mirror_vertex t inside (index_of_covertex_rotor rot)
    let outc ← getCell t outside
    let idx ← cellIndexOfVertex t outside m
    let nn ← deref (outc.neighborSlot idx)
    if nn == inside then do
      let r ← insert_in_tagged_hole_go t rotFuel v (inside, index_of_covertex_rotor rot) fuel
      let t5 ← set_neighbors r.1 new_s i r.2.1 (index_of_second_covertex rot)
      let rr ← insert_in_tagged_hole_loop t5 rotFuel v old_s new_s facet_index rest fuel
      .ok (rr.1, r.2.2 ++ rr.2)
    else do
      let t5 ← set_neighbors t new_s i nn (index_of_second_covertex rot)
      insert_in_tagged_hole_loop t5 rotFuel v old_s new_s facet_index rest fuel
termination_by (fuel, 1, l.length)

end

/-- `insert_in_hole(start, end, f, out)`: set the visited bit on every
cell of the range, create the new vertex, run the tagged-hole insertion,
then erase the range. -/
def insert_in_hole (t : T) (range : List Nat) (f : Facet) :
    Except Err (T × Nat × List Nat) := do
  let t1 := range.foldl (fun acc s => set_visited acc s true) t
  let (t2, v) := new_vertex t1
  let fuel := (t2.cells.length + 2) * (t2.dcur.toNat + 2)
  let r ← insert_in_tagged_hole_go t2 fuel v f fuel
  .ok (delete_full_cells r.1 range, v, r.2.2)

-- - - - - - - - - - - - - - - - - - - - - - - - - - - - POINT INSERTION DRIVERS

/-- `insert_in_full_cell(s)`, clone loop for `i = 1 .. cur_dim`: clone
`s`, record the clone in the scratch cell `fc`, put `v` at slot `i` of
the clone, repoint `s->vertex(i-1)`'s back-reference, and link the clone
outward across facet `i`. -/
def insertInFullCellLoop (s v : Nat) :
    T → (Int → Option Nat) → List Int → Except Err (T × (Int → Option Nat))
  | t, fc, [] => .ok (t, fc)
  | t, fc, i :: rest => do
    let (ta, new_s) ← new_full_cell_from t s
    let fc2 := Function.update fc i (some new_s)
    let tb ← associate_vertex_with_full_cell ta new_s i v
    let c ← getCell tb s
    let vi ← deref (c.vertexSlot (i - 1))
    let tc ← set_full_cell_of_vertex tb vi new_s
    let nb ← derefP (← neighborA tc s i)
    let mi ← mirror_indexA tc s i
    let td ← set_neighbors tc new_s i nb mi
    insertInFullCellLoop s v td fc2 rest

/-- The inner `j` loop of the final cross-linking double loop. -/
def insertInFullCellLinkInner (fc : Int → Option Nat) (i : Int) :
    T → List Int → Except Err T
  | t, [] => .ok t
  | t, j :: rest =>
    if j = i then insertInFullCellLinkInner fc i t rest
    else do
      let a ← derefP (fc i)
      let b ← derefP (fc j)
      let t2 ← set_neighbors t a j b i
      insertInFullCellLinkInner fc i t2 rest

/-- The outer `i` loop of the final cross-linking double loop. -/
def insertInFullCellLinkOuter (fc : Int → Option Nat) (full : List Int) :
    T → List Int → Except Err T
  | t, [] => .ok t
  | t, i :: rest => do
    let t2 ← insertInFullCellLinkInner fc i t full
    insertInFullCellLinkOuter fc full t2 rest

/-- `insert_in_full_cell(s)`: precondition `0 < current_dimension()`;
create `v`, clone `s` into `cur_dim` new cells recorded in the scratch
cell `fc` (slot `i` of clone `i` holding `v`), reuse `s` as the 0-th cell
with `v` at slot 0, then cross-link all pairs. -/
def insert_in_full_cell (t : T) (s : Nat) : Except Err (T × Nat) := do
  if ¬ (0 < t.dcur) then .error .precond
  else do
    let cur := t.dcur
    let (t1, v) := new_vertex t
    let r ← insertInFullCellLoop s v t1 (fun _ => none) ((slotList cur).drop 1)
    let fc := Function.update r.2 0 (some s)
    let t3 ← associate_vertex_with_full_cell r.1 s 0 v
    let t4 ← insertInFullCellLinkOuter fc (slotList cur) t3 (slotList cur)
    .ok (t4, v)

/-- `insert_in_face(f)`: gather the cells incident to `f`, then insert in
that hole starting from the facet `(f.full_cell(), f.index(0))`. -/
def insert_in_face (t : T) (f : Face) : Except Err (T × Nat) := do
  let (simps, t2) ← incident_full_cells t f
  let idx0 ←
    match f.indices.head? with
    | some k => pure k
    | none => .error .badHandle
  let r ← insert_in_hole t2 simps (f.fullCell, idx0)
  .ok (r.1, r.2.1)

/-- The hole and starting facet that `insert_in_facet(ft)` hands to
`insert_in_hole`: the two cells sharing the facet, and
`Facet(s[0], (index_of_covertex(ft) + 1) % current_dimension())`. -/
def insert_in_facet_args (t : T) (ft : Facet) : Except Err (List Nat × Facet) := do
  let s0 := full_cell_of_facet ft
  let i := index_of_covertex ft
  let c ← getCell t s0
  let s1 ← deref (c.neighborSlot i)
  .ok ([s0, s1], (s0, Int.tmod (i + 1) t.dcur))

/-- `insert_in_facet(ft)`. -/
def insert_in_facet (t : T) (ft : Facet) : Except Err (T × Nat) := do
  let (hole, f) ← insert_in_facet_args t ft
  let r ← insert_in_hole t hole f
  .ok (r.1, r.2.1)

end TDS

namespace TDS

-- - - - - - - - - - - - - - - - - - - - - - - - - - - - DIMENSION INCREASE

/-- `cellHasVertex` on a live cell id. -/
def hasVertexLive (t : T) (s : Nat) (v : Nat) : Except Err Bool := do
  let c ← getCell t s
  .ok (cellHasVertex c t.dcur v)

/-- The twin-filling loop of the first pass: for `k = 1 .. cur_dim`,
`associate_vertex_with_full_cell(S_new, k, vertex(S, k - 1))`. -/
def diidTwinLoop (cid s_new : Nat) : T → List Int → Except Err T
  | t, [] => .ok t
  | t, k :: rest => do
    let vk ← derefP (← vertexA t cid (k - 1))
    let t2 ← associate_vertex_with_full_cell t s_new k vk
    diidTwinLoop cid s_new t2 rest

/-- First pass of `do_insert_increase_dimension`: iterate over the cells
(in pool order; cells created during the pass are skipped anyway since
their `cur_dim` vertex slot is already non-null), extend each pre-existing
cell with `x` at slot `cur_dim`, mark it visited, create the star twin of
each cell not containing `star`, and record the `swap_me` cell when
`cur_dim == 2`.  Returns the state and the recorded `swap_me`. -/
def diidFirstPass (x star : Nat) : T → List Nat → Option Nat → Except Err (T × Option Nat)
  | t, [], sw => .ok (t, sw)
  | t, cid :: rest, sw => do
    let c ← getCell t cid
    let cur := t.dcur
    if c.vertexSlot cur ≠ none then diidFirstPass x star t rest sw
    else do
      let t1 := set_visited t cid true
      let t2 ← associate_vertex_with_full_cell t1 cid cur x
      let c2 ← getCell t2 cid
      if ¬ cellHasVertex c2 cur star then do
        let (t3, s_new) := new_full_cell t2
        let t4 ← set_neighbors t3 cid cur s_new 0
        let t5 ← associate_vertex_with_full_cell t4 s_new 0 star
        let t6 ← diidTwinLoop cid s_new t5 ((slotList cur).drop 1)
        diidFirstPass x star t6 rest sw
      else if cur == 2 then do
        let si ← cellIndexOfVertex t2 cid star
        let c3 ← getCell t2 cid
        if c3.mirrorSlot si == 0 then diidFirstPass x star t2 rest (some cid)
        else diidFirstPass x star t2 rest sw
      else diidFirstPass x star t2 rest sw

/-- Second pass, per-cell neighbor setup: cells containing `star` get
their `cur_dim` neighbor across the star facet with a shifted mirror
index; other cells propagate their old neighbors (shifted one slot) to
their twin. -/
def diidSetupCell (star : Nat) (t : T) (S : Nat) : Except Err T := do
  let c ← getCell t S
  let cur := t.dcur
  match (slotList cur).find? (fun i => c.vertexSlot i == some star) with
  | some star_index => do
    let n1 ← derefP (← neighborA t S star_index)
    let n2 ← derefP (← neighborA t n1 cur)
    let mi ← mirror_indexA t S star_index
    set_neighbors t S cur n2 (mi + 1)
  | none => do
    let s_new ← derefP (← neighborA t S cur)
    (rangeTo cur).foldlM
      (fun acc k => do
        let s_opp ← derefP (← neighborA acc S k)
        let hv ← hasVertexLive acc s_opp star
        if ¬ hv then do
          let nk ← derefP (← neighborA acc s_opp cur)
          let mi ← mirror_indexA acc S k
          set_neighbors acc s_new (k + 1) nk (mi + 1)
        else .ok acc) t

/-- Second pass, queue propagation: for `k < cur_dim`, clear-and-enqueue
each still-visited neighbor. -/
def diidPush (t : T) (S : Nat) : List Int → List Nat → Except Err (T × List Nat)
  | [], adds => .ok (t, adds)
  | k :: rest, adds => do
    let n ← derefP (← neighborA t S k)
    if get_visited t n then diidPush (set_visited t n false) S rest (adds ++ [n])
    else diidPush t S rest adds

/-- Second pass of `do_insert_increase_dimension` (fuel-based BFS). -/
def diidSecondPass (star : Nat) : Nat → T → List Nat → Except Err T
  | 0, _, _ => .error .fuel
  | _ + 1, t, [] => .ok t
  | fuel + 1, t, S :: q => do
    let t1 ← diidSetupCell star t S
    let r ← diidPush t1 S (rangeTo t1.dcur) []
    diidSecondPass star fuel r.1 (q ++ r.2)

/-- The parity-correction step (third pass): when `cur_dim` (the raised
dimension) is even and greater than 1, every cell whose `cur_dim` vertex
slot does not hold `x` gets its vertex slots `cur_dim - 1` and `cur_dim`
swapped. -/
def parity_step (cur_dim : Int) (x : Nat) (cells : List (Nat × Cell)) : List (Nat × Cell) :=
  if cur_dim % 2 == 0 ∧ cur_dim > 1 then
    cells.map (fun p =>
      if p.2.vertexSlot cur_dim ≠ some x then (p.1, p.2.swapVertices (cur_dim - 1) cur_dim)
      else p)
  else cells

/-- `do_insert_increase_dimension(x, star)`: the three passes plus the
final `swap_me` fix-up. -/
def do_insert_increase_dimension (x star : Nat) (t : T) : Except Err T := do
  let start ←
    match t.cells.head? with
    | some p => pure p.1
    | none => .error .badHandle
  let (t1, sw) ← diidFirstPass x star t (cellIds t) none
  let t2 := set_visited t1 start false
  let t3 ← diidSecondPass star (t2.cells.length + 2) t2 [start]
  let t4 : T := { t3 with cells := parity_step t3.dcur x t3.cells }
  match sw with
  | some s => modifyCell t4 s (fun c => c.swapVertices 1 2)
  | none => .ok t4

/-- The precondition tests at the head of `insert_increase_dimension`:
`prev_cur_dim < ambient_dimension()`, then a non-null `star` when the
current dimension is not -2, respectively a null `star` when it is. -/
def iid_precondition_violated (dmax : Int) (t : T) (star : Option Nat) : Bool :=
  ¬ (t.dcur < dmax) ∨ (if t.dcur ≠ -2 then star = none else star ≠ none)

/-- The body of `insert_increase_dimension` past its precondition tests:
raise the dimension, create the new vertex, and dispatch on the previous
dimension. -/
def iid_body (dmax : Int) (t : T) (star : Option Nat) : Except Err (T × Nat) := do
  let t1 ← set_current_dimension dmax t (t.dcur + 1)
  let (t2, v) := new_vertex t1
  if t.dcur = -2 then do
    let (t3, s) := new_full_cell t2
    let t4 ← associate_vertex_with_full_cell t3 s 0 v
    .ok (t4, v)
  else if t.dcur = -1 then do
    let starV ← derefP star
    let r ← getVtx t2 starV
    let infinite_full_cell ← deref r.fullCell
    let (t3, finite_full_cell) := new_full_cell t2
    let t4 ← associate_vertex_with_full_cell t3 finite_full_cell 0 v
    let t5 ← set_neighbors t4 infinite_full_cell 0 finite_full_cell 0
    .ok (t5, v)
  else do
    let starV ← derefP star
    let t3 ← do_insert_increase_dimension v starV t2
    .ok (t3, v)

/-- `insert_increase_dimension(star)`. -/
def insert_increase_dimension (dmax : Int) (t : T) (star : Option Nat) :
    Except Err (T × Nat) :=
  if iid_precondition_violated dmax t star then .error .precond
  else iid_body dmax t star

/-- The empty triangulation (the state after construction or `clear()`). -/
def emptyT : T :=
  { dcur := -2, vertices := [], cells := [], visited := ∅, nextV := 0, nextC := 0 }

end TDS

namespace TDS

-- - - - - - - - - - - - - - - - - - - - - - - - - - - - CONCRETE FIXTURES & WELL-FORMEDNESS

/-- Build a slot function from a list (null outside `[0, length)`,
matching a cell populated on exactly those slots). -/
def slotFun (l : List (Option Nat)) : Int → Option Nat :=
  fun i => if 0 ≤ i then l.getD i.toNat none else none

/-- Build a mirror-slot function from a list (`-1`, the initialization
value, outside `[0, length)`). -/
def mirrorFun (l : List Int) : Int → Int :=
  fun i => if 0 ≤ i then l.getD i.toNat (-1) else -1

def mkCell (vs ns : List (Option Nat)) (ms : List Int) : Cell :=
  { vertexSlot := slotFun vs, neighborSlot := slotFun ns, mirrorSlot := mirrorFun ms }

/-- A concrete valid 2-dimensional triangulation: one finite triangle
(cell 1 on vertices 1, 2, 3) and three cells through the distinguished
vertex 0 — exactly the state reached from the empty triangulation by four
`insert_increase_dimension` calls. -/
def triangle2 : T :=
  { dcur := 2,
    vertices := [(0, VertexRec.mk (some 3)), (1, VertexRec.mk (some 3)),
                 (2, VertexRec.mk (some 3)), (3, VertexRec.mk (some 2))],
    cells := [(0, mkCell [some 0, some 3, some 2] [some 1, some 2, some 3] [0, 1, 1]),
              (1, mkCell [some 1, some 2, some 3] [some 0, some 2, some 3] [0, 0, 0]),
              (2, mkCell [some 0, some 1, some 3] [some 1, some 0, some 3] [1, 1, 2]),
              (3, mkCell [some 0, some 2, some 1] [some 1, some 0, some 2] [2, 2, 2])],
    visited := ∅,
    nextV := 4, nextC := 4 }

/-- A concrete valid 1-dimensional triangulation: a cycle of three
segments (cell i joining vertices i and i+1 mod 3). -/
def cycle1 : T :=
  { dcur := 1,
    vertices := [(0, VertexRec.mk (some 0)), (1, VertexRec.mk (some 0)),
                 (2, VertexRec.mk (some 1))],
    cells := [(0, mkCell [some 0, some 1] [some 1, some 2] [1, 0]),
              (1, mkCell [some 1, some 2] [some 2, some 0] [1, 0]),
              (2, mkCell [some 2, some 0] [some 0, some 1] [1, 0])],
    visited := ∅,
    nextV := 3, nextC := 3 }

/-- Every live cell's neighbor slots `0 .. current_dimension` are non-null
and reference live cells (the closed-adjacency well-formedness used by the
traversal engine; a violation is undefined behaviour in the source). -/
def neighborsClosed (t : T) : Bool :=
  t.cells.all (fun p =>
    (slotList t.dcur).all (fun i =>
      match p.2.neighborSlot i with
      | some n => (lookup t.cells n).isSome
      | none => false))

/-- The adjacency relation of the cell graph: `y` is a neighbor of `x`
across some slot `i <= current_dimension`. -/
def AdjT (t : T) (x y : Nat) : Prop :=
  ∃ i ∈ slotList t.dcur, ∃ c, lookup t.cells x = some c ∧ c.neighborSlot i = some y

/-- A walk from `x` to `y` along the adjacency relation all of whose
nodes after `x` lie in `S`. -/
inductive ChainW (t : T) (S : Finset Nat) : Nat → Nat → Prop
  | refl (x : Nat) : ChainW t S x x
  | head {x y z : Nat} : AdjT t x y → y ∈ S → ChainW t S y z → ChainW t S x z

/-- Projections for stating theorems: the vertex slot of a live cell. -/
def vslot (t : T) (c : Nat) (i : Int) : Option Nat :=
  match lookup t.cells c with
  | some cc => cc.vertexSlot i
  | none => none

def nslot (t : T) (c : Nat) (i : Int) : Option Nat :=
  match lookup t.cells c with
  | some cc => cc.neighborSlot i
  | none => none

def mslot (t : T) (c : Nat) (i : Int) : Option Int :=
  match lookup t.cells c with
  | some cc => some (cc.mirrorSlot i)
  | none => none

/-- `(current dimension, vertex count, full-cell count)`. -/
def summary3 (t : T) : Int × Nat × Nat :=
  (t.dcur, number_of_vertices t, number_of_full_cells t)

/-- The end-to-end scenario pipeline: `n` calls of
`insert_increase_dimension` from the empty triangulation, handing the
first created vertex (the distinguished "infinite" vertex, identifier 0)
as the star argument from the second call on. -/
def scenarioStep (dmax : Int) (p : Except Err (T × Nat)) : Except Err (T × Nat) :=
  match p with
  | .error e => .error e
  | .ok (t, _) => insert_increase_dimension dmax t (if t.dcur = -2 then none else some 0)

def scenarioRun (dmax : Int) (n : Nat) : Except Err (T × Nat) :=
  Nat.rec (.ok (emptyT, 0)) (fun _ acc => scenarioStep dmax acc) n

end TDS

namespace TDS

/-- A finite original cell right after raising the dimension from 2 to 3:
vertices 1, 2, 3 plus the new vertex 4 at slot 3 (it does not contain the
star vertex 0). -/
def finiteCell3 : Cell :=
  mkCell [some 1, some 2, some 3, some 4] [none, none, none, none] [-1, -1, -1, -1]

end TDS

namespace TDS

/-- Closed adjacency as a proposition: every live cell's neighbor slots
`0 .. current_dimension` hold live cells. -/
def WFclosed (t : T) : Prop :=
  ∀ x c, lookup t.cells x = some c → ∀ i ∈ slotList t.dcur,
    ∃ n cn, c.neighborSlot i = some n ∧ lookup t.cells n = some cn

/-- Identifier freshness: every live identifier is below the next fresh
one (true of every state reachable from the empty triangulation). -/
def wfFresh (t : T) : Prop :=
  (∀ p ∈ t.cells, p.1 < t.nextC) ∧ (∀ p ∈ t.vertices, p.1 < t.nextV)

/-- Pool keys are pairwise distinct. -/
def wfNodup (t : T) : Prop :=
  (t.cells.map Prod.fst).Nodup ∧ (t.vertices.map Prod.fst).Nodup

end TDS

namespace TDS

/-- The scratch cell `fc` of `insert_in_full_cell` records the family of
cells around the new vertex; `LinkedAt t fc i j` says the cell recorded
at `i` points to the cell recorded at `j` across slot `j` with mirror
index `i`. -/
def LinkedAt (t : T) (fc : Int → Option Nat) (i j : Int) : Prop :=
  ∀ a b, fc i = some a → fc j = some b →
    nslot t a j = some b ∧ mslot t a j = some i

end TDS

-- = = = = = = = = = = = = = = = = = = = = = = = = = = = = = = = = THEOREMS

namespace TDS

-- - - - - - - - - - - - - - - - - - - - - - - - - - - - C10: accessor index range

/-- C10: when `current_dimension() < 0` the accessors `vertex`, `neighbor`
and `mirror_index` accept exactly the index 0, and when
`current_dimension() >= 0` they accept exactly `0 <= i <= current_dimension()`:
`check_range` holds, and none of the three accessors reports a
precondition failure, precisely under that condition (for a non-null cell
handle). -/
theorem c10_accessor_index_range (t : T) (s : Option Nat) (i : Int)
    (hs : s ≠ none) :
    (check_range t.dcur i = true ↔
      (if t.dcur < 0 then i = 0 else 0 ≤ i ∧ i ≤ t.dcur)) ∧
    ((vertexQ t s i ≠ .error .precond ∧ neighborQ t s i ≠ .error .precond ∧
      mirror_indexQ t s i ≠ .error .precond) ↔
      (if t.dcur < 0 then i = 0 else 0 ≤ i ∧ i ≤ t.dcur)) := by
  obtain ⟨sid, rfl⟩ : ∃ sid, s = some sid := by
    cases s with
    | none => exact absurd rfl hs
    | some sid => exact ⟨sid, rfl⟩
  have hcr : check_range t.dcur i = true ↔
      (if t.dcur < 0 then i = 0 else 0 ≤ i ∧ i ≤ t.dcur) := by
    unfold check_range
    by_cases h : t.dcur < 0 <;> simp [h]
  refine ⟨hcr, ?_⟩
  rw [← hcr]
  unfold vertexQ neighborQ mirror_indexQ vertexA neighborA mirror_indexA
  by_cases h : check_range t.dcur i
  · simp only [h, if_true]
    unfold getCell
    cases hl : lookup t.cells sid <;>
      simp [hl, Except.map, h]
  · simp [h]

/-- Witness for `c10_accessor_index_range` at a concrete input. -/
theorem c10_accessor_index_range_witness :
    (some 0 : Option Nat) ≠ none ∧
    (check_range triangle2.dcur 0 = true ↔
      (if triangle2.dcur < 0 then (0 : Int) = 0 else 0 ≤ (0 : Int) ∧ (0 : Int) ≤ triangle2.dcur)) :=
  ⟨by decide, (c10_accessor_index_range triangle2 (some 0) 0 (by decide)).1⟩

-- - - - - - - - - - - - - - - - - - - - - - - - - - - - C8: insert_increase_dimension preconditions

/-- C8: `insert_increase_dimension(star)` signals a precondition violation
exactly when `star` is null while the current dimension differs from -2,
or `star` is non-null while the current dimension is -2, or the current
dimension is not strictly below the ambient dimension; when no violation
occurs the call proceeds into the body. -/
theorem c8_insert_increase_dimension_preconditions (dmax : Int) (t : T)
    (star : Option Nat) :
    (iid_precondition_violated dmax t star = true ↔
      ((star = none ∧ t.dcur ≠ -2) ∨ (star ≠ none ∧ t.dcur = -2) ∨
        ¬ (t.dcur < dmax))) ∧
    (iid_precondition_violated dmax t star = true →
      insert_increase_dimension dmax t star = .error .precond) ∧
    (iid_precondition_violated dmax t star = false →
      insert_increase_dimension dmax t star = iid_body dmax t star) := by
  refine ⟨?_, ?_, ?_⟩
  · unfold iid_precondition_violated
    by_cases h2 : t.dcur = -2 <;> by_cases hd : t.dcur < dmax <;>
      cases star <;> simp [h2, hd]
  · intro h
    unfold insert_increase_dimension
    simp [h]
  · intro h
    unfold insert_increase_dimension
    simp [h]

/-- Witness for `c8_insert_increase_dimension_preconditions`: a non-null
star on the empty triangulation is a violation and the call reports it. -/
theorem c8_insert_increase_dimension_preconditions_witness :
    insert_increase_dimension 2 emptyT (some 0) = .error .precond :=
  (c8_insert_increase_dimension_preconditions 2 emptyT (some 0)).2.1 (by decide)

end TDS

namespace TDS

-- - - - - - - - - - - - - - - - - - - - - - - - - - - - C2: rotate_rotor

/-- C2 counterexample: it is not the case that `rotate_rotor((s, i, j))`
crosses the facet opposite the second covertex `j` — i.e. that its result
`(s', j', k)` satisfies `s' = s.neighbor[j]`, `k = s.mirror_index[j]` and
`j' = s'.index(s.vertex[i])`.  Refuted on the concrete 2-dimensional
triangulation at the rotor `(0, 1, 0)`. -/
theorem c2_rotate_rotor_counterexample :
    ¬ (∀ (t : T) (s : Nat) (i j : Int) (r : Rotor),
        i ≠ j → rotate_rotor t (s, i, j) = .ok r →
        neighborA t s j = .ok (some r.1) ∧ mirror_indexA t s j = .ok r.2.2) := by
  intro h
  have h2 := h triangle2 0 1 0 (2, 0, 1) (by decide) (by decide)
  exact absurd h2.1 (by decide)

/-- C2 amended: `rotate_rotor(r = (s, i, j))` crosses the facet opposite
the FIRST covertex `i`: with `k = s.mirror_index[i]`, `s' = s.neighbor[i]`
and `j' = s'.index(s.vertex[j])`, it returns `(s', j', k)`. -/
theorem c2_rotate_rotor_amended (t : T) (s : Nat) (i j : Int)
    (s1 : Nat) (j1 k : Int) (v : Nat)
    (hk : mirror_indexA t s i = .ok k)
    (hn : neighborA t s i = .ok (some s1))
    (hv : vertexA t s j = .ok (some v))
    (hx : cellIndexOfVertex t s1 v = .ok j1) :
    rotate_rotor t (s, i, j) = .ok (s1, j1, k) := by
  unfold rotate_rotor full_cell_of_rotor index_of_covertex_rotor index_of_second_covertex
  simp only [hk, hn, hv, hx, deref, Except.bind, bind]

/-- Witness for `c2_rotate_rotor_amended` at the rotor `(0, 1, 0)` of the
concrete 2-dimensional triangulation. -/
theorem c2_rotate_rotor_amended_witness :
    rotate_rotor triangle2 (0, 1, 0) = .ok (2, 0, 1) :=
  c2_rotate_rotor_amended triangle2 0 1 0 2 0 1 0
    (by decide) (by decide) (by decide) (by decide)

-- - - - - - - - - - - - - - - - - - - - - - - - - - - - C7: insert_in_facet

/-- C7 counterexample: it is not the case that for every facet `(s0, i)`
the starting facet handed to `insert_in_hole` has a covertex index
different from `i` — in current dimension 1, `(i + 1) % 1 = 0 = i` for
`i = 0`, as on the concrete 3-segment cycle. -/
theorem c7_insert_in_facet_counterexample :
    ¬ (∀ (t : T) (s0 : Nat) (i : Int) (hole : List Nat) (sf : Facet),
        insert_in_facet_args t (s0, i) = .ok (hole, sf) →
        (∃ s1, nslot t s0 i = some s1 ∧ hole = [s0, s1]) ∧
          sf.1 = s0 ∧ sf.2 ≠ i) := by
  intro h
  have h2 := h cycle1 0 0 [0, 1] (0, 0) (by decide)
  exact h2.2.2 rfl

/-- C7 amended: `insert_in_facet(f = (s0, i))` hands `insert_in_hole` the
hole `[s0, s0.neighbor[i]]` and the starting facet
`(s0, (i + 1) % current_dimension())`; the covertex index of the starting
facet differs from `i` whenever the current dimension is at least 2 (it
can coincide when the current dimension is 1). -/
theorem c7_insert_in_facet_amended (t : T) (s0 : Nat) (i : Int) (s1 : Nat)
    (hn : nslot t s0 i = some s1) :
    insert_in_facet_args t (s0, i) = .ok ([s0, s1], (s0, Int.tmod (i + 1) t.dcur)) ∧
      (2 ≤ t.dcur → 0 ≤ i → i ≤ t.dcur → Int.tmod (i + 1) t.dcur ≠ i) := by
  constructor
  · unfold insert_in_facet_args full_cell_of_facet index_of_covertex getCell nslot at *
    cases hl : lookup t.cells s0 with
    | none => rw [hl] at hn; exact absurd hn (by simp)
    | some c =>
      rw [hl] at hn
      have hn2 : c.neighborSlot i = some s1 := hn
      simp only [hl, hn2, deref, Except.bind, bind]
  · intro hd hi0 hid
    have htm : Int.tmod (i + 1) t.dcur = (i + 1) % t.dcur := by
      rw [Int.tmod_eq_emod (by omega) (by omega)]
    rw [htm]
    rcases show i + 1 < t.dcur ∨ i + 1 = t.dcur ∨ i + 1 = t.dcur + 1 from by omega with h | h | h
    · rw [Int.emod_eq_of_lt (by omega) h]; omega
    · rw [h, Int.emod_self]; omega
    · have : i + 1 = 1 + t.dcur * 1 := by omega
      rw [this, Int.add_mul_emod_self_left, Int.emod_eq_of_lt (by omega) (by omega)]
      omega

/-- Witness for `c7_insert_in_facet_amended` on the concrete
2-dimensional triangulation at the facet `(0, 0)`. -/
theorem c7_insert_in_facet_amended_witness :
    insert_in_facet_args triangle2 (0, 0) = .ok ([0, 1], (0, 1)) ∧ (1 : Int) ≠ 0 := by
  have h := c7_insert_in_facet_amended triangle2 0 0 1 (by decide)
  exact ⟨h.1, h.2 (by decide) (by decide) (by decide)⟩

-- - - - - - - - - - - - - - - - - - - - - - - - - - - - C9: incident_faces early return

/-- C9: for any vertex, comparator and flag, when the requested feature
dimension `d` is at least the current dimension (with the stated
precondition `0 < d`), `incident_faces` emits nothing and returns the
output unchanged. -/
theorem c9_incident_faces_high_dimension (t : T) (v : Nat) (d : Int)
    (cmp : Nat → Nat → Bool) (upper_faces : Bool)
    (hd : 0 < d) (hge : t.dcur ≤ d) :
    incident_faces t v d cmp upper_faces = .ok [] := by
  unfold incident_faces
  simp [hd, hge, ge_iff_le]

/-- Witness for `c9_incident_faces_high_dimension`: requesting
2-dimensional faces in the 2-dimensional triangulation yields nothing. -/
theorem c9_incident_faces_high_dimension_witness :
    incident_faces triangle2 1 2 (fun a b => a < b) false = .ok [] :=
  c9_incident_faces_high_dimension triangle2 1 2 (fun a b => a < b) false
    (by decide) (by decide)

end TDS

namespace TDS

-- - - - - - - - - - - - - - - - - - - - - - - - - - - - C4: the parity-correction step

/-- Association-list lookup commutes with a value-only map. -/
theorem lookup_map_snd (l : List (Nat × α)) (g : α → β) (k : Nat) :
    lookup (l.map (fun p => (p.1, g p.2))) k = (lookup l k).map g := by
  induction l with
  | nil => rfl
  | cons a tl ih =>
    unfold lookup at *
    by_cases h : a.1 == k <;> simp [List.find?, h] <;> simpa using ih

/-- C4 counterexample: it is not the case that, on raising the dimension
from an even prior dimension `d >= 2`, the parity-correction step swaps
vertex slots `d` and `d-1` of every cell not containing the star vertex.
Refuted at `d = 2` on a finite cell: the step (whose test reads the
raised dimension `d+1 = 3`, which is odd) changes nothing. -/
theorem c4_parity_step_counterexample :
    ¬ (∀ (d : Int) (x star : Nat) (cells : List (Nat × Cell)),
        2 ≤ d → d % 2 = 0 →
        parity_step (d + 1) x cells =
          cells.map (fun p =>
            if ¬ cellHasVertex p.2 (d + 1) star then
              (p.1, p.2.swapVertices (d - 1) d)
            else p)) := by
  intro h
  have h2 := h 2 4 0 [(9, finiteCell3)] (by norm_num) (by decide)
  have h3 := congrArg (fun l => (lookup l 9).map (fun c => c.vertexSlot 1)) h2
  revert h3
  decide

/-- C4 amended: the parity-correction step runs only when the raised
dimension `cur_dim = d + 1` is even and exceeds 1 (prior `d` odd); it then
applies `swap_vertices(cur_dim - 1, cur_dim)` to exactly the cells whose
`cur_dim` vertex slot does not hold the new vertex `x` (the star-twin
cells); in particular, for an even prior dimension it changes no cell. -/
theorem c4_parity_step_amended (cur_dim : Int) (x : Nat)
    (cells : List (Nat × Cell)) (cid : Nat) :
    (¬ (cur_dim % 2 = 0 ∧ 1 < cur_dim) → parity_step cur_dim x cells = cells) ∧
    (cur_dim % 2 = 0 ∧ 1 < cur_dim →
      lookup (parity_step cur_dim x cells) cid =
        (lookup cells cid).map (fun c =>
          if c.vertexSlot cur_dim ≠ some x then
            c.swapVertices (cur_dim - 1) cur_dim
          else c)) := by
  constructor
  · intro h
    unfold parity_step
    have hc : ¬ ((cur_dim % 2 == 0) = true ∧ cur_dim > 1) :=
      fun hh => h ⟨beq_iff_eq.mp hh.1, hh.2⟩
    rw [if_neg hc]
  · intro h
    unfold parity_step
    have hc : ((cur_dim % 2 == 0) = true ∧ cur_dim > 1) :=
      ⟨beq_iff_eq.mpr h.1, h.2⟩
    rw [if_pos hc]
    have he : (fun (p : Nat × Cell) =>
        if p.2.vertexSlot cur_dim ≠ some x then
          (p.1, p.2.swapVertices (cur_dim - 1) cur_dim)
        else p) =
        (fun (p : Nat × Cell) =>
          (p.1, if p.2.vertexSlot cur_dim ≠ some x then
            p.2.swapVertices (cur_dim - 1) cur_dim else p.2)) := by
      funext p
      by_cases hc : p.2.vertexSlot cur_dim ≠ some x <;> simp [hc]
    rw [he]
    exact lookup_map_snd cells
      (fun c => if c.vertexSlot cur_dim ≠ some x then
        c.swapVertices (cur_dim - 1) cur_dim else c) cid

/-- Witness for `c4_parity_step_amended`: raising from the even prior
dimension 2 (so `cur_dim = 3`), the step leaves the cell list unchanged. -/
theorem c4_parity_step_amended_witness :
    parity_step 3 4 [(9, finiteCell3)] = [(9, finiteCell3)] :=
  (c4_parity_step_amended 3 4 [(9, finiteCell3)] 9).1 (by decide)

end TDS

namespace TDS

-- - - - - - - - - - - - - - - - - - - - - - - - - - - - C5: the empty-to-triangle scenario

/-- `insert_increase_dimension` does not depend on which ambient dimension
bound it is checked against, as long as the current dimension is below
both bounds. -/
theorem iid_dmax_irrel (d1 d2 : Int) (t : T) (star : Option Nat)
    (h1 : t.dcur < d1) (h2 : t.dcur < d2) :
    insert_increase_dimension d1 t star = insert_increase_dimension d2 t star := by
  have hv : ∀ d, t.dcur < d → iid_precondition_violated d t star =
      decide (if t.dcur ≠ -2 then star = none else star ≠ none) := by
    intro d hd
    unfold iid_precondition_violated
    simp [hd]
  unfold insert_increase_dimension
  rw [hv d1 h1, hv d2 h2]
  by_cases hs : (if t.dcur ≠ -2 then star = none else star ≠ none)
  · simp [hs]
  · rw [decide_eq_false hs]
    simp only [Bool.false_eq_true, if_false]
    unfold iid_body set_current_dimension
    by_cases hd : (-1 : Int) ≤ t.dcur + 1
    · simp only [show ((-1 ≤ t.dcur + 1 ∧ t.dcur + 1 ≤ d1)) = True from eq_true ⟨hd, by omega⟩,
        show ((-1 ≤ t.dcur + 1 ∧ t.dcur + 1 ≤ d2)) = True from eq_true ⟨hd, by omega⟩]
    · simp only [show ((-1 ≤ t.dcur + 1 ∧ t.dcur + 1 ≤ d1)) = False from
        eq_false (fun hc => hd hc.1),
        show ((-1 ≤ t.dcur + 1 ∧ t.dcur + 1 ≤ d2)) = False from
        eq_false (fun hc => hd hc.1)]

/-- One scenario step is insensitive to the ambient bound when the state
it acts on has current dimension below 2. -/
theorem scenarioStep_irrel (dmax : Int) (p : Except Err (T × Nat))
    (h : 2 ≤ dmax) (hp : ∀ q, p = .ok q → q.1.dcur < 2) :
    scenarioStep dmax p = scenarioStep 2 p := by
  cases p with
  | error e => rfl
  | ok q =>
    have hq := hp q rfl
    unfold scenarioStep
    exact iid_dmax_irrel dmax 2 q.1 _ (by omega) hq

/-- The current dimension along the dmax = 2 scenario prefix. -/
theorem scenarioRun_two_dims :
    (scenarioRun 2 0).map (fun q => q.1.dcur) = .ok (-2) ∧
    (scenarioRun 2 1).map (fun q => q.1.dcur) = .ok (-1) ∧
    (scenarioRun 2 2).map (fun q => q.1.dcur) = .ok 0 ∧
    (scenarioRun 2 3).map (fun q => q.1.dcur) = .ok 1 := by
  refine ⟨by decide, by decide, by decide, by decide⟩

/-- The four-step scenario run is insensitive to the ambient bound
(given ambient dimension at least 2). -/
theorem scenarioRun_four_irrel (dmax : Int) (h : 2 ≤ dmax) :
    scenarioRun dmax 4 = scenarioRun 2 4 := by
  obtain ⟨w0, w1, w2, w3⟩ := scenarioRun_two_dims
  have dimOf : ∀ (p : Except Err (T × Nat)) (d : Int),
      p.map (fun q => q.1.dcur) = .ok d → ∀ q, p = .ok q → q.1.dcur = d := by
    intro p d hpd q hq
    rw [hq] at hpd
    simpa [Except.map] using hpd
  have s1 : scenarioRun dmax 1 = scenarioRun 2 1 := by
    show scenarioStep dmax (scenarioRun dmax 0) = scenarioStep 2 (scenarioRun 2 0)
    exact scenarioStep_irrel dmax _ h
      (fun q hq => by rw [dimOf _ _ w0 q hq]; omega)
  have s2 : scenarioRun dmax 2 = scenarioRun 2 2 := by
    show scenarioStep dmax (scenarioRun dmax 1) = scenarioStep 2 (scenarioRun 2 1)
    rw [s1]
    exact scenarioStep_irrel dmax _ h
      (fun q hq => by rw [dimOf _ _ w1 q hq]; omega)
  have s3 : scenarioRun dmax 3 = scenarioRun 2 3 := by
    show scenarioStep dmax (scenarioRun dmax 2) = scenarioStep 2 (scenarioRun 2 2)
    rw [s2]
    exact scenarioStep_irrel dmax _ h
      (fun q hq => by rw [dimOf _ _ w2 q hq]; omega)
  show scenarioStep dmax (scenarioRun dmax 3) = scenarioStep 2 (scenarioRun 2 3)
  rw [s3]
  exact scenarioStep_irrel dmax _ h
    (fun q hq => by rw [dimOf _ _ w3 q hq]; omega)

/-- C5 counterexample: it is not the case that five
`insert_increase_dimension` calls from the empty triangulation (star = the
infinite vertex from the second call on) reach current dimension 2 with 4
vertices and 4 full cells, for every ambient dimension at least 2: with
ambient dimension 3 the five calls reach dimension 3 with 5 vertices and
5 full cells. -/
theorem c5_scenario_counterexample :
    ¬ (∀ dmax : Int, 2 ≤ dmax →
        (scenarioRun dmax 5).map (fun q => summary3 q.1) = .ok (2, 4, 4)) := by
  intro h
  exact absurd (h 3 (by norm_num)) (by decide)

/-- C5 amended: FOUR calls of `insert_increase_dimension` from the empty
triangulation (with the infinite vertex as star from the second call on)
produce current dimension 2 with exactly 4 vertices and 4 full cells, for
every ambient dimension at least 2. -/
theorem c5_scenario_amended (dmax : Int) (h : 2 ≤ dmax) :
    (scenarioRun dmax 4).map (fun q => summary3 q.1) = .ok (2, 4, 4) := by
  rw [scenarioRun_four_irrel dmax h]
  decide

/-- Witness for `c5_scenario_amended` at ambient dimension 2. -/
theorem c5_scenario_amended_witness :
    (scenarioRun 2 4).map (fun q => summary3 q.1) = .ok (2, 4, 4) :=
  c5_scenario_amended 2 (by norm_num)

end TDS

namespace TDS

-- - - - - - - - - - - - - - - - - - - - - - - - - - - - C3: traversal hygiene, graph lemmas

/-- The boolean closed-adjacency check implies the propositional one. -/
theorem neighborsClosed_spec (t : T) (h : neighborsClosed t = true) : WFclosed t := by
  intro x c hx i hi
  unfold neighborsClosed at h
  rw [List.all_eq_true] at h
  have hmem : (x, c) ∈ t.cells := by
    unfold lookup at hx
    cases hf : t.cells.find? (fun p => p.1 == x) with
    | none => rw [hf] at hx; exact absurd hx (by simp)
    | some p =>
      rw [hf] at hx
      have hp := List.find?_some hf
      have hpm := List.mem_of_find?_eq_some hf
      simp at hx hp
      rw [← hp, ← hx]
      exact hpm
  have h2 := h _ hmem
  rw [List.all_eq_true] at h2
  have h3 := h2 i hi
  cases hn : c.neighborSlot i with
  | none => rw [hn] at h3; exact absurd h3 (by simp)
  | some n =>
    rw [hn] at h3
    simp only [Option.isSome_iff_exists] at h3
    obtain ⟨cn, hcn⟩ := h3
    exact ⟨n, cn, rfl, hcn⟩

/-- A set of live identifiers is no larger than the cell pool. -/
theorem card_le_of_closed (t : T) (vis : Finset Nat)
    (h : ∀ y ∈ vis, ∃ cy, lookup t.cells y = some cy) :
    vis.card ≤ t.cells.length := by
  have hsub : vis ⊆ (t.cells.map Prod.fst).toFinset := by
    intro y hy
    obtain ⟨cy, hcy⟩ := h y hy
    unfold lookup at hcy
    cases hf : t.cells.find? (fun p => p.1 == y) with
    | none => rw [hf] at hcy; exact absurd hcy (by simp)
    | some p =>
      have hp := List.find?_some hf
      have hpm := List.mem_of_find?_eq_some hf
      simp at hp
      rw [List.mem_toFinset]
      exact hp ▸ List.mem_map_of_mem Prod.fst hpm
  calc vis.card ≤ (t.cells.map Prod.fst).toFinset.card := Finset.card_le_card hsub
    _ ≤ (t.cells.map Prod.fst).length := List.toFinset_card_le _
    _ = t.cells.length := List.length_map _ _

/-- Chains are monotone in the allowed node set. -/
theorem ChainW_mono (t : T) (S S2 : Finset Nat) (hss : S ⊆ S2) (x y : Nat)
    (h : ChainW t S x y) : ChainW t S2 x y := by
  induction h with
  | refl x => exact ChainW.refl x
  | head ha hm _ ih => exact ChainW.head ha (hss hm) ih

/-- Chains extend by one adjacency step at the far end. -/
theorem ChainW_snoc (t : T) (S : Finset Nat) (x y z : Nat)
    (h : ChainW t S x y) : AdjT t y z → z ∈ S → ChainW t S x z := by
  induction h with
  | refl x => exact fun ha hz => ChainW.head ha hz (ChainW.refl z)
  | head ha2 hm _ ih => exact fun ha hz => ChainW.head ha2 hm (ih ha hz)

/-- Chain surgery: a chain inside `S` either survives inside `S2`, or
some node of `S` outside `S2` starts a chain inside `S2` to the target. -/
theorem ChainW_avoid (t : T) (S S2 : Finset Nat) (x y : Nat)
    (h : ChainW t S x y) :
    ChainW t S2 x y ∨ ∃ z, z ∈ S ∧ z ∉ S2 ∧ ChainW t S2 z y := by
  induction h with
  | refl x => exact Or.inl (ChainW.refl x)
  | head ha hm hc ih =>
    rename_i a w z2
    rcases ih with ih | ih
    · by_cases hw : w ∈ S2
      · exact Or.inl (ChainW.head ha hw ih)
      · exact Or.inr ⟨w, hm, hw, ih⟩
    · exact Or.inr ih

/-- Chains transfer between states with the same cells and dimension. -/
theorem ChainW_congr (t t2 : T) (hc : t.cells = t2.cells) (hd : t.dcur = t2.dcur)
    (S : Finset Nat) (x y : Nat) (h : ChainW t S x y) : ChainW t2 S x y := by
  induction h with
  | refl x => exact ChainW.refl x
  | head ha hm _ ih =>
    refine ChainW.head ?_ hm ih
    obtain ⟨i, hi, c, hl, hn⟩ := ha
    exact ⟨i, hd ▸ hi, c, hc ▸ hl, hn⟩

end TDS

namespace TDS

/-- Characterization of one facet sweep of the gathering BFS: it
succeeds, only neighbors of the swept cell become newly visited, the
enqueued cells are newly visited neighbors, and the queue grows by at
most the growth of the visited set. -/
theorem gatherStep_spec (t : T) (pred : Nat → Int → Bool) (s : Nat) (cs : Cell)
    (hwf : WFclosed t) (hs : lookup t.cells s = some cs) :
    ∀ (L : List Int), (∀ i ∈ L, i ∈ slotList t.dcur) →
    ∀ (vis : Finset Nat) (adds : List Nat) (ft : Option Facet),
    ∃ vis2 adds2 ft2,
      gatherStep t pred s L vis adds ft = .ok (vis2, adds2, ft2) ∧
      vis ⊆ vis2 ∧
      (∀ y ∈ vis2, y ∈ vis ∨ AdjT t s y) ∧
      (∀ y ∈ vis2, y ∈ vis ∨ ∃ cy, lookup t.cells y = some cy) ∧
      (∀ a ∈ adds2, a ∈ adds ∨ (AdjT t s a ∧ a ∈ vis2)) ∧
      (∀ a ∈ adds, a ∈ adds2) ∧
      adds2.length + vis.card ≤ adds.length + vis2.card := by
  intro L
  induction L with
  | nil =>
    intro _ vis adds ft
    exact ⟨vis, adds, ft, rfl, Finset.Subset.refl _, fun y hy => Or.inl hy,
      fun y hy => Or.inl hy, fun a ha => Or.inl ha, fun a ha => ha, by omega⟩
  | cons i rest ih =>
    intro hL vis adds ft
    have hi : i ∈ slotList t.dcur := hL i (List.mem_cons_self i rest)
    obtain ⟨n, cn, hn, hcn⟩ := hwf s cs hs i hi
    have hrest : ∀ j ∈ rest, j ∈ slotList t.dcur :=
      fun j hj => hL j (List.mem_cons_of_mem i hj)
    have hadjn : AdjT t s n := ⟨i, hi, cs, hs, hn⟩
    by_cases hmem : n ∈ vis
    · obtain ⟨vis2, adds2, ft2, heq, h1, h2, h3, h4, h5, h6⟩ := ih hrest vis adds ft
      refine ⟨vis2, adds2, ft2, ?_, h1, h2, h3, h4, h5, h6⟩
      simp only [gatherStep, getCell, hs, hn, deref, Except.bind, bind]
      rw [if_neg (not_not_intro hmem)]
      exact heq
    · by_cases hpred : pred s i
      · obtain ⟨vis2, adds2, ft2, heq, h1, h2, h3, h4, h5, h6⟩ :=
          ih hrest (insert n vis) (adds ++ [n]) ft
        refine ⟨vis2, adds2, ft2, ?_, ?_, ?_, ?_, ?_, ?_, ?_⟩
        · simp only [gatherStep, getCell, hs, hn, deref, Except.bind, bind]
          rw [if_pos hmem, if_pos hpred]
          exact heq
        · exact fun y hy => h1 (Finset.mem_insert_of_mem hy)
        · intro y hy
          rcases h2 y hy with hy2 | hy2
          · rcases Finset.mem_insert.mp hy2 with rfl | hy3
            · exact Or.inr hadjn
            · exact Or.inl hy3
          · exact Or.inr hy2
        · intro y hy
          rcases h3 y hy with hy2 | hy2
          · rcases Finset.mem_insert.mp hy2 with rfl | hy3
            · exact Or.inr ⟨cn, hcn⟩
            · exact Or.inl hy3
          · exact Or.inr hy2
        · intro a ha
          rcases h4 a ha with ha2 | ha2
          · rcases List.mem_append.mp ha2 with ha3 | ha3
            · exact Or.inl ha3
            · have : a = n := by simpa using ha3
              subst this
              exact Or.inr ⟨hadjn, h1 (Finset.mem_insert_self a vis)⟩
          · exact Or.inr ha2
        · exact fun a ha => h5 _ (List.mem_append_left _ ha)
        · have hc := Finset.card_insert_of_not_mem hmem
          have hl : (adds ++ [n]).length = adds.length + 1 := by simp
          omega
      · obtain ⟨vis2, adds2, ft2, heq, h1, h2, h3, h4, h5, h6⟩ :=
          ih hrest (insert n vis) adds (some (s, i))
        refine ⟨vis2, adds2, ft2, ?_, ?_, ?_, ?_, ?_, h5, ?_⟩
        · simp only [gatherStep, getCell, hs, hn, deref, Except.bind, bind]
          rw [if_pos hmem, if_neg hpred]
          exact heq
        · exact fun y hy => h1 (Finset.mem_insert_of_mem hy)
        · intro y hy
          rcases h2 y hy with hy2 | hy2
          · rcases Finset.mem_insert.mp hy2 with rfl | hy3
            · exact Or.inr hadjn
            · exact Or.inl hy3
          · exact Or.inr hy2
        · intro y hy
          rcases h3 y hy with hy2 | hy2
          · rcases Finset.mem_insert.mp hy2 with rfl | hy3
            · exact Or.inr ⟨cn, hcn⟩
            · exact Or.inl hy3
          · exact Or.inr hy2
        · intro a ha
          rcases h4 a ha with ha2 | ha2
          · exact Or.inl ha2
          · exact Or.inr ha2
        · have hc := Finset.card_insert_of_not_mem hmem
          omega

end TDS

namespace TDS

/-- The gathering BFS succeeds under closed adjacency and sufficient fuel,
and every visited cell ends up connected to `start` inside the visited
set. -/
theorem gatherLoop_spec (t : T) (pred : Nat → Int → Bool) (start : Nat)
    (hwf : WFclosed t) :
    ∀ (fuel : Nat) (queue : List Nat) (vis : Finset Nat) (out : List Nat)
      (ft : Option Facet),
    (∀ q ∈ queue, q ∈ vis) →
    (∀ y ∈ vis, ∃ cy, lookup t.cells y = some cy) →
    (∀ y ∈ vis, ChainW t vis start y) →
    (queue.length + t.cells.length + 1 ≤ fuel + vis.card) →
    ∃ out2 ft2 vis2,
      gatherLoop t pred fuel queue vis out ft = .ok (out2, ft2, vis2) ∧
      vis ⊆ vis2 ∧
      (∀ y ∈ vis2, ∃ cy, lookup t.cells y = some cy) ∧
      (∀ y ∈ vis2, ChainW t vis2 start y) := by
  intro fuel
  induction fuel with
  | zero =>
    intro queue vis out ft _ hcl _ hfuel
    have := card_le_of_closed t vis hcl
    omega
  | succ fuel ih =>
    intro queue vis out ft hq hcl hch hfuel
    cases queue with
    | nil => exact ⟨out, ft, vis, rfl, Finset.Subset.refl _, hcl, hch⟩
    | cons s q =>
      have hsv : s ∈ vis := hq s (List.mem_cons_self s q)
      obtain ⟨cs, hcs⟩ := hcl s hsv
      obtain ⟨vis2, adds2, ft2, hstep, hsub, hadj, hclo, haddsP, _, hcard⟩ :=
        gatherStep_spec t pred s cs hwf hcs (slotList t.dcur) (fun i hi => hi) vis [] ft
      have hcl2 : ∀ y ∈ vis2, ∃ cy, lookup t.cells y = some cy := by
        intro y hy
        rcases hclo y hy with hy2 | hy2
        · exact hcl y hy2
        · exact hy2
      have hch2 : ∀ y ∈ vis2, ChainW t vis2 start y := by
        intro y hy
        rcases hadj y hy with hy2 | hy2
        · exact ChainW_mono t vis vis2 hsub start y (hch y hy2)
        · exact ChainW_snoc t vis2 start s y
            (ChainW_mono t vis vis2 hsub start s (hch s hsv)) hy2 hy
      have hq2 : ∀ x ∈ q ++ adds2, x ∈ vis2 := by
        intro x hx
        rcases List.mem_append.mp hx with hx2 | hx2
        · exact hsub (hq x (List.mem_cons_of_mem s hx2))
        · rcases haddsP x hx2 with hx3 | hx3
          · exact absurd hx3 (List.not_mem_nil x)
          · exact hx3.2
      have hfuel2 : (q ++ adds2).length + t.cells.length + 1 ≤ fuel + vis2.card := by
        have hl : (q ++ adds2).length = q.length + adds2.length := by simp
        have hl2 : (s :: q).length = q.length + 1 := by simp
        have hl3 : ([] : List Nat).length = 0 := rfl
        omega
      obtain ⟨out3, ft3, vis3, hrec, hsub3, hcl3, hch3⟩ :=
        ih (q ++ adds2) vis2 (out ++ [s]) ft2 hq2 hcl2 hch2 hfuel2
      refine ⟨out3, ft3, vis3, ?_, Finset.Subset.trans hsub hsub3, hcl3, hch3⟩
      simp only [gatherLoop, hstep, Except.bind, bind]
      exact hrec

end TDS

namespace TDS

/-- Characterization of one facet sweep of the clearing walk: it
succeeds, the visited set only shrinks, every cell it removes is pushed,
every pushed cell was visited and got removed, and — decisively — no
neighbor of the swept cell (through the swept slots) stays visited. -/
theorem clearStep_spec (t : T) (s : Nat) (cs : Cell)
    (hwf : WFclosed t) (hs : lookup t.cells s = some cs) :
    ∀ (L : List Int), (∀ i ∈ L, i ∈ slotList t.dcur) →
    ∀ (vis : Finset Nat) (adds : List Nat),
    ∃ vis2 adds2,
      clearStep t s L vis adds = .ok (vis2, adds2) ∧
      vis2 ⊆ vis ∧
      (∀ y ∈ vis, y ∉ vis2 → y ∈ adds2) ∧
      (∀ a ∈ adds2, a ∈ adds ∨ (a ∈ vis ∧ a ∉ vis2)) ∧
      (∀ a ∈ adds, a ∈ adds2) ∧
      (∀ i ∈ L, ∀ n, cs.neighborSlot i = some n → n ∉ vis2) ∧
      adds2.length + vis2.card ≤ adds.length + vis.card := by
  intro L
  induction L with
  | nil =>
    intro _ vis adds
    refine ⟨vis, adds, rfl, Finset.Subset.refl _, ?_, fun a ha => Or.inl ha,
      fun a ha => ha, ?_, by omega⟩
    · intro y hy hy2
      exact absurd hy hy2
    · intro i hi
      exact absurd hi (List.not_mem_nil i)
  | cons i rest ih =>
    intro hL vis adds
    have hi : i ∈ slotList t.dcur := hL i (List.mem_cons_self i rest)
    obtain ⟨n, cn, hn, hcn⟩ := hwf s cs hs i hi
    have hrest : ∀ j ∈ rest, j ∈ slotList t.dcur :=
      fun j hj => hL j (List.mem_cons_of_mem i hj)
    by_cases hmem : n ∈ vis
    · obtain ⟨vis2, adds2, heq, h1, h2, h3, h4, h5, h6⟩ :=
        ih hrest (vis.erase n) (adds ++ [n])
      refine ⟨vis2, adds2, ?_, ?_, ?_, ?_, ?_, ?_, ?_⟩
      · simp only [clearStep, getCell, hs, hn, deref, Except.bind, bind]
        rw [if_pos hmem]
        exact heq
      · exact Finset.Subset.trans h1 (Finset.erase_subset n vis)
      · intro y hy hy2
        by_cases hyn : y = n
        · subst hyn
          exact h4 _ (List.mem_append_right adds (List.mem_singleton.mpr rfl))
        · exact h2 y (Finset.mem_erase.mpr ⟨hyn, hy⟩) hy2
      · intro a ha
        rcases h3 a ha with ha2 | ha2
        · rcases List.mem_append.mp ha2 with ha3 | ha3
          · exact Or.inl ha3
          · have han : a = n := by simpa using ha3
            subst han
            refine Or.inr ⟨hmem, fun hc => ?_⟩
            exact (Finset.mem_erase.mp (h1 hc)).1 rfl
        · exact Or.inr ⟨(Finset.mem_erase.mp ha2.1).2, ha2.2⟩
      · exact fun a ha => h4 _ (List.mem_append_left _ ha)
      · intro j hj m hm
        rcases List.mem_cons.mp hj with rfl | hj2
        · have hmn : m = n := by rw [hn] at hm; exact (Option.some.inj hm).symm
          subst hmn
          intro hc
          exact (Finset.mem_erase.mp (h1 hc)).1 rfl
        · exact h5 j hj2 m hm
      · have hc := Finset.card_erase_of_mem hmem
        have hl : (adds ++ [n]).length = adds.length + 1 := by simp
        have hpos : 0 < vis.card := Finset.card_pos.mpr ⟨n, hmem⟩
        omega
    · obtain ⟨vis2, adds2, heq, h1, h2, h3, h4, h5, h6⟩ := ih hrest vis adds
      refine ⟨vis2, adds2, ?_, h1, h2, h3, h4, ?_, h6⟩
      · simp only [clearStep, getCell, hs, hn, deref, Except.bind, bind]
        rw [if_neg hmem]
        exact heq
      · intro j hj m hm
        rcases List.mem_cons.mp hj with rfl | hj2
        · have hmn : m = n := by rw [hn] at hm; exact (Option.some.inj hm).symm
          subst hmn
          exact fun hc => hmem (h1 hc)
        · exact h5 j hj2 m hm

/-- The clearing walk empties the visited set: under closed adjacency,
when every queued cell is live and unvisited and every visited cell is
reachable from some queued cell through visited cells, the walk
terminates with no visited cell left. -/
theorem clearLoop_empty (t : T) (hwf : WFclosed t) :
    ∀ (fuel : Nat) (queue : List Nat) (vis : Finset Nat),
    (∀ q ∈ queue, ∃ cq, lookup t.cells q = some cq) →
    (∀ q ∈ queue, q ∉ vis) →
    (∀ y ∈ vis, ∃ cy, lookup t.cells y = some cy) →
    (∀ y ∈ vis, ∃ p, p ∈ queue ∧ ChainW t vis p y) →
    (queue.length + vis.card + 1 ≤ fuel) →
    clearLoop t fuel queue vis = .ok ∅ := by
  intro fuel
  induction fuel with
  | zero =>
    intro queue vis _ _ _ _ hfuel
    omega
  | succ fuel ih =>
    intro queue vis hqlk hqv hcl hreach hfuel
    cases queue with
    | nil =>
      have hemp : vis = ∅ := by
        refine Finset.eq_empty_of_forall_not_mem (fun y hy => ?_)
        obtain ⟨p, hp, _⟩ := hreach y hy
        exact absurd hp (List.not_mem_nil p)
      simp only [clearLoop, hemp]
    | cons s q =>
      obtain ⟨cs, hcs⟩ := hqlk s (List.mem_cons_self s q)
      have hsv : s ∉ vis := hqv s (List.mem_cons_self s q)
      obtain ⟨vis2, adds2, hstep, h1, h2, h3, h4, h5, h6⟩ :=
        clearStep_spec t s cs hwf hcs (slotList t.dcur) (fun i hi => hi) vis []
      have hqlk2 : ∀ p ∈ q ++ adds2, ∃ cp, lookup t.cells p = some cp := by
        intro p hp
        rcases List.mem_append.mp hp with hp2 | hp2
        · exact hqlk p (List.mem_cons_of_mem s hp2)
        · rcases h3 p hp2 with hp3 | hp3
          · exact absurd hp3 (List.not_mem_nil p)
          · exact hcl p hp3.1
      have hqv2 : ∀ p ∈ q ++ adds2, p ∉ vis2 := by
        intro p hp
        rcases List.mem_append.mp hp with hp2 | hp2
        · exact fun hc => hqv p (List.mem_cons_of_mem s hp2) (h1 hc)
        · rcases h3 p hp2 with hp3 | hp3
          · exact absurd hp3 (List.not_mem_nil p)
          · exact hp3.2
      have hcl2 : ∀ y ∈ vis2, ∃ cy, lookup t.cells y = some cy :=
        fun y hy => hcl y (h1 hy)
      have hreach2 : ∀ y ∈ vis2, ∃ p, p ∈ q ++ adds2 ∧ ChainW t vis2 p y := by
        intro y hy
        obtain ⟨p, hp, hchain⟩ := hreach y (h1 hy)
        rcases ChainW_avoid t vis vis2 p y hchain with hc | ⟨z, hz1, hz2, hc⟩
        · rcases List.mem_cons.mp hp with rfl | hp2
          · cases hc with
            | refl => exact absurd (h1 hy) hsv
            | head ha hm hrest2 =>
              obtain ⟨i, hi, c, hlk, hslot⟩ := ha
              have hceq : c = cs := by
                rw [hcs] at hlk
                exact (Option.some.inj hlk).symm
              subst hceq
              exact absurd hm (h5 i hi _ hslot)
          · exact ⟨p, List.mem_append_left _ hp2, hc⟩
        · exact ⟨z, List.mem_append_right _ (h2 z hz1 hz2), hc⟩
      have hfuel2 : (q ++ adds2).length + vis2.card + 1 ≤ fuel := by
        have hl : (q ++ adds2).length = q.length + adds2.length := by simp
        have hl2 : (s :: q).length = q.length + 1 := by simp
        have hl3 : ([] : List Nat).length = 0 := rfl
        omega
      have hrec := ih (q ++ adds2) vis2 hqlk2 hqv2 hcl2 hreach2 hfuel2
      simp only [clearLoop, hstep, Except.bind, bind]
      exact hrec

end TDS

namespace TDS

/-- C3: for every start cell and every traversal predicate, starting from
a state whose visited bits are all 0 (and whose adjacency is closed),
`gather_full_cells` returns with every visited bit 0 again: the second
walk (`clear_visited_marks`) clears every bit the BFS set, including bits
on cells that were marked but never enqueued. -/
theorem c3_gather_full_cells_clears_visited (t : T) (pred : Nat → Int → Bool)
    (start : Nat)
    (hN : neighborsClosed t = true)
    (hstart : ∃ c0, lookup t.cells start = some c0)
    (hvis : t.visited = ∅) :
    ∃ out ft t2, gather_full_cells t pred start = .ok (out, ft, t2) ∧
      t2.visited = ∅ := by
  have hwf : WFclosed t := neighborsClosed_spec t hN
  obtain ⟨c0, hc0⟩ := hstart
  have hv1 : (set_visited t start true).visited = insert start ∅ := by
    simp [set_visited, hvis]
  have hwf1 : WFclosed (set_visited t start true) := hwf
  obtain ⟨out2, ft2, vis2, hloop, hsub, hcl2, hch2⟩ :=
    gatherLoop_spec (set_visited t start true) pred start hwf1
      ((set_visited t start true).cells.length + 2) [start] (insert start ∅) [] none
      (by
        intro q hq
        have : q = start := by simpa using hq
        subst this
        exact Finset.mem_insert_self q ∅)
      (by
        intro y hy
        have : y = start := by simpa using hy
        subst this
        exact ⟨c0, hc0⟩)
      (by
        intro y hy
        have : y = start := by simpa using hy
        subst this
        exact ChainW.refl y)
      (by
        have hcard : (insert start (∅ : Finset Nat)).card = 1 := by simp
        simp only [List.length_singleton, hcard]
        omega)
  have hstart2 : start ∈ vis2 := hsub (Finset.mem_insert_self start ∅)
  -- run the clearing pass on the state holding the BFS marks
  have hclearloop :
      clearLoop (set_visited ({ set_visited t start true with visited := vis2 } : T) start false)
        (vis2.card + 2)
        [start]
        (set_visited ({ set_visited t start true with visited := vis2 } : T) start false).visited
        = .ok ∅ := by
    show clearLoop _ _ [start] (vis2.erase start) = .ok ∅
    refine clearLoop_empty
      (set_visited ({ set_visited t start true with visited := vis2 } : T) start false)
      hwf (vis2.card + 2) [start] (vis2.erase start)
      ?_ ?_ ?_ ?_ ?_
    · intro q hq
      have : q = start := by simpa using hq
      subst this
      exact ⟨c0, hc0⟩
    · intro q hq
      have : q = start := by simpa using hq
      subst this
      exact Finset.not_mem_erase q vis2
    · intro y hy
      exact hcl2 y (Finset.mem_of_mem_erase hy)
    · intro y hy
      have hy2 : y ∈ vis2 := Finset.mem_of_mem_erase hy
      have hchain := ChainW_congr (set_visited t start true)
        (set_visited ({ set_visited t start true with visited := vis2 } : T) start false)
        rfl rfl vis2 start y (hch2 y hy2)
      rcases ChainW_avoid _ vis2 (vis2.erase start) start y hchain with hc | ⟨z, hz1, hz2, hc⟩
      · exact ⟨start, List.mem_singleton.mpr rfl, hc⟩
      · have hzs : z = start := by
          by_contra hne
          exact hz2 (Finset.mem_erase.mpr ⟨hne, hz1⟩)
        subst hzs
        exact ⟨z, List.mem_singleton.mpr rfl, hc⟩
    · have hcard := Finset.card_erase_of_mem hstart2
      have hpos : 0 < vis2.card := Finset.card_pos.mpr ⟨start, hstart2⟩
      simp only [List.length_singleton]
      omega
  refine ⟨out2, ft2,
    { set_visited ({ set_visited t start true with visited := vis2 } : T) start false with
        visited := (∅ : Finset Nat) }, ?_, rfl⟩
  unfold gather_full_cells clear_visited_marks
  dsimp only
  rw [hv1, hloop]
  simp only [Except.bind, bind]
  rw [hclearloop]

/-- Witness for `c3_gather_full_cells_clears_visited` on the concrete
2-dimensional triangulation with a predicate that crosses nothing. -/
theorem c3_gather_full_cells_clears_visited_witness :
    ∃ out ft t2,
      gather_full_cells triangle2 (fun _ _ => false) 0 = .ok (out, ft, t2) ∧
        t2.visited = ∅ :=
  c3_gather_full_cells_clears_visited triangle2 (fun _ _ => false) 0
    (by decide)
    ⟨mkCell [some 0, some 3, some 2] [some 1, some 2, some 3] [0, 1, 1], rfl⟩
    (by decide)

end TDS

namespace TDS

-- - - - - - - - - - - - - - - - - - - - - - - - - - - - C6: insert_in_full_cell, pool lemmas

theorem lookup_updateEntry_eq (l : List (Nat × α)) (k : Nat) (f : α → α) :
    lookup (updateEntry l k f) k = (lookup l k).map f := by
  induction l with
  | nil => rfl
  | cons a tl ih =>
    unfold updateEntry lookup at *
    by_cases h : a.1 = k
    · subst h
      rw [List.map_cons, if_pos rfl]
      rw [List.find?_cons_of_pos _ (by simp), List.find?_cons_of_pos _ (by simp)]
      simp
    · rw [List.map_cons, if_neg h]
      rw [List.find?_cons_of_neg _ (by simpa using h),
        List.find?_cons_of_neg _ (by simpa using h)]
      exact ih

theorem lookup_updateEntry_ne (l : List (Nat × α)) (k : Nat) (f : α → α)
    (k2 : Nat) (h : k2 ≠ k) :
    lookup (updateEntry l k f) k2 = lookup l k2 := by
  induction l with
  | nil => rfl
  | cons a tl ih =>
    unfold updateEntry lookup at *
    by_cases h3 : a.1 = k
    · have hne : (a.1 == k2) = false := by
        simp only [beq_eq_false_iff_ne]
        rw [h3]
        exact fun hc => h hc.symm
      rw [List.map_cons, if_pos h3]
      rw [List.find?_cons_of_neg _ (by simp [hne]),
        List.find?_cons_of_neg _ (by simp [hne])]
      exact ih
    · rw [List.map_cons, if_neg h3]
      by_cases h2 : a.1 = k2
      · rw [List.find?_cons_of_pos _ (by simpa using h2),
          List.find?_cons_of_pos _ (by simpa using h2)]
      · rw [List.find?_cons_of_neg _ (by simpa using h2),
          List.find?_cons_of_neg _ (by simpa using h2)]
        exact ih

theorem updateEntry_keys (l : List (Nat × α)) (k : Nat) (f : α → α) :
    (updateEntry l k f).map Prod.fst = l.map Prod.fst := by
  induction l with
  | nil => rfl
  | cons a tl ih =>
    unfold updateEntry at *
    by_cases h : a.1 = k <;> simp [h, ih]

theorem updateEntry_length (l : List (Nat × α)) (k : Nat) (f : α → α) :
    (updateEntry l k f).length = l.length := by
  unfold updateEntry
  exact List.length_map l _

/-- lookup into an appended singleton with a fresh key. -/
theorem lookup_append_new (l : List (Nat × α)) (k : Nat) (a : α)
    (hfresh : ∀ p ∈ l, p.1 ≠ k) :
    lookup (l ++ [(k, a)]) k = some a := by
  induction l with
  | nil => simp [lookup, List.find?]
  | cons b tl ih =>
    unfold lookup at *
    rw [List.cons_append, List.find?_cons_of_neg]
    · exact ih (fun p hp => hfresh p (List.mem_cons_of_mem b hp))
    · simpa using hfresh b (List.mem_cons_self b tl)

theorem lookup_append_old (l : List (Nat × α)) (k : Nat) (a : α)
    (k2 : Nat) (h : k2 ≠ k) :
    lookup (l ++ [(k, a)]) k2 = lookup l k2 := by
  induction l with
  | nil =>
    unfold lookup
    rw [List.nil_append, List.find?_cons_of_neg _ (by
      simp only [beq_iff_eq]
      exact fun hc => h hc.symm), List.find?_nil]
  | cons b tl ih =>
    unfold lookup at *
    by_cases h2 : b.1 = k2
    · rw [List.cons_append, List.find?_cons_of_pos _ (by simpa using h2),
        List.find?_cons_of_pos _ (by simpa using h2)]
    · rw [List.cons_append, List.find?_cons_of_neg _ (by simpa using h2),
        List.find?_cons_of_neg _ (by simpa using h2)]
      exact ih

end TDS

namespace TDS

theorem lookup_isSome_iff (l : List (Nat × α)) (k : Nat) :
    (lookup l k).isSome = true ↔ k ∈ l.map Prod.fst := by
  induction l with
  | nil => simp [lookup, List.find?]
  | cons a tl ih =>
    unfold lookup at *
    by_cases h : a.1 = k
    · rw [List.find?_cons_of_pos _ (by simpa using h)]
      simp [h]
    · rw [List.find?_cons_of_neg _ (by simpa using h)]
      simp only [List.map_cons, List.mem_cons]
      rw [← ih]
      constructor
      · exact fun hh => Or.inr hh
      · intro hh
        rcases hh with hh | hh
        · exact absurd hh.symm h
        · exact hh

theorem slot_check_range (d : Int) (i : Int) (h : i ∈ slotList d) :
    check_range d i = true := by
  unfold slotList at h
  have hm : 0 ≤ i ∧ i ≤ d := by
    obtain ⟨n, hn, he⟩ := List.mem_map.mp h
    rw [List.mem_range] at hn
    subst he
    simp only [Int.ofNat_eq_coe]
    constructor <;> omega
  unfold check_range
  rw [if_neg (by omega)]
  simp only [Bool.and_eq_true, decide_eq_true_eq]
  omega

theorem modifyCell_eq (t : T) (a : Nat) (f : Cell → Cell) (ca : Cell)
    (ha : lookup t.cells a = some ca) :
    modifyCell t a f = .ok { t with cells := updateEntry t.cells a f } := by
  unfold modifyCell
  rw [ha]

theorem modifyVertex_eq (t : T) (a : Nat) (f : VertexRec → VertexRec) (ra : VertexRec)
    (ha : lookup t.vertices a = some ra) :
    modifyVertex t a f = .ok { t with vertices := updateEntry t.vertices a f } := by
  unfold modifyVertex
  rw [ha]

theorem set_neighbors_eq (t : T) (a : Nat) (i : Int) (b : Nat) (j : Int)
    (ca cb : Cell)
    (ha : lookup t.cells a = some ca) (hb : lookup t.cells b = some cb)
    (hab : b ≠ a)
    (hci : check_range t.dcur i = true) (hcj : check_range t.dcur j = true) :
    set_neighbors t a i b j = .ok { t with cells := updateEntry (updateEntry t.cells a (fun c => (c.setNeighbor i (some b)).setMirror i j)) b (fun c => (c.setNeighbor j (some a)).setMirror j i) } := by
  unfold set_neighbors
  rw [if_neg (not_not_intro ⟨hci, hcj⟩)]
  rw [modifyCell_eq t a _ ca ha]
  simp only [Except.bind, bind]
  rw [modifyCell_eq _ b _ cb (by
    show lookup (updateEntry t.cells a
      (fun c => (c.setNeighbor i (some b)).setMirror i j)) b = some cb
    rw [lookup_updateEntry_ne _ _ _ b hab]
    exact hb)]

theorem associate_eq (t : T) (s2 : Nat) (i : Int) (v : Nat) (cs2 : Cell)
    (rv : VertexRec)
    (hs2 : lookup t.cells s2 = some cs2) (hv : lookup t.vertices v = some rv)
    (hcr : check_range t.dcur i = true) :
    associate_vertex_with_full_cell t s2 i v = .ok { t with cells := updateEntry t.cells s2 (fun c => c.setVertex i (some v)), vertices := updateEntry t.vertices v (fun _ => VertexRec.mk (some s2)) } := by
  unfold associate_vertex_with_full_cell
  rw [if_neg (not_not_intro hcr)]
  rw [modifyCell_eq t s2 _ cs2 hs2]
  simp only [Except.bind, bind]
  rw [modifyVertex_eq _ v _ rv (by
    show lookup t.vertices v = some rv
    exact hv)]

theorem set_full_cell_of_vertex_eq (t : T) (v : Nat) (s2 : Nat) (rv : VertexRec)
    (hv : lookup t.vertices v = some rv) :
    set_full_cell_of_vertex t v s2 = .ok { t with vertices := updateEntry t.vertices v (fun _ => VertexRec.mk (some s2)) } := by
  unfold set_full_cell_of_vertex
  exact modifyVertex_eq t v _ rv hv

theorem new_full_cell_from_eq (t : T) (s2 : Nat) (c : Cell)
    (h : lookup t.cells s2 = some c) :
    new_full_cell_from t s2 = .ok ({ t with cells := t.cells ++ [(t.nextC, c)], visited := (if s2 ∈ t.visited then insert t.nextC t.visited else t.visited), nextC := t.nextC + 1 }, t.nextC) := by
  unfold new_full_cell_from getCell
  rw [h]
  rfl

end TDS

namespace TDS

theorem lookup_some_mem (l : List (Nat × α)) (k : Nat) (a : α)
    (h : lookup l k = some a) : (k, a) ∈ l := by
  unfold lookup at h
  cases hf : l.find? (fun p => p.1 == k) with
  | none => rw [hf] at h; exact absurd h (by simp)
  | some p =>
    rw [hf] at h
    have hp := List.find?_some hf
    have hpm := List.mem_of_find?_eq_some hf
    simp only [beq_iff_eq] at hp
    have h2 : p.2 = a := by simpa using h
    have h4 : (k, a) = p := by rw [← hp, ← h2, Prod.mk.eta]
    exact h4 ▸ hpm

/-- Characterization of the clone loop of `insert_in_full_cell` over the
slot list `L`: it succeeds, appends one clone of `s` per slot (holding
`v` at that slot) with sequentially assigned identifiers, records the
clones in the scratch cell, and changes no other cell's vertex slots, nor
the cell holding `s`, nor the vertex-pool keys. -/
theorem insertInFullCellLoop_spec (s v : Nat) (cs : Cell) :
    ∀ (L : List Int) (t1 : T) (fc : Int → Option Nat),
    lookup t1.cells s = some cs →
    (∀ i ∈ L, i ∈ slotList t1.dcur ∧ 1 ≤ i) →
    (∀ i ∈ L, ∃ w rw, cs.vertexSlot (i - 1) = some w ∧ lookup t1.vertices w = some rw) →
    (∀ i ∈ L, ∃ n cn, cs.neighborSlot i = some n ∧ lookup t1.cells n = some cn ∧ n ≠ s) →
    (∀ i ∈ L, check_range t1.dcur (cs.mirrorSlot i) = true) →
    (∃ rv, lookup t1.vertices v = some rv) →
    (∀ p ∈ t1.cells, p.1 < t1.nextC) →
    L.Nodup →
    ∃ t2 fc2,
      insertInFullCellLoop s v t1 fc L = .ok (t2, fc2) ∧
      t2.dcur = t1.dcur ∧
      t2.nextC = t1.nextC + L.length ∧
      t2.cells.length = t1.cells.length + L.length ∧
      t2.vertices.map Prod.fst = t1.vertices.map Prod.fst ∧
      t2.vertices.length = t1.vertices.length ∧
      lookup t2.cells s = some cs ∧
      (∀ c, c < t1.nextC → c ≠ s →
        (lookup t2.cells c).map Cell.vertexSlot = (lookup t1.cells c).map Cell.vertexSlot ∧
        (lookup t2.cells c).isSome = (lookup t1.cells c).isSome) ∧
      (∀ jdx i, L.get? jdx = some i →
        ∃ cj, lookup t2.cells (t1.nextC + jdx) = some cj ∧
          cj.vertexSlot = Function.update cs.vertexSlot i (some v)) ∧
      (∀ i, i ∉ L → fc2 i = fc i) ∧
      (∀ jdx i, L.get? jdx = some i → fc2 i = some (t1.nextC + jdx)) ∧
      (∀ p ∈ t2.cells, p.1 < t2.nextC) := by
  intro L
  induction L with
  | nil =>
    intro t1 fc hs _ _ _ _ _ hfresh _
    refine ⟨t1, fc, rfl, rfl, rfl, rfl, rfl, rfl, hs, ?_, ?_, ?_, ?_, hfresh⟩
    · intro c _ _
      exact ⟨rfl, rfl⟩
    · intro jdx i h
      exact absurd h (by simp)
    · intro i _
      rfl
    · intro jdx i h
      exact absurd h (by simp)
  | cons i rest ih =>
    intro t1 fc hs hLs hvs hns hms hv hfresh hnodup
    obtain ⟨hslot, hge1⟩ := hLs i (List.mem_cons_self i rest)
    obtain ⟨w, rw, hw, hwlk⟩ := hvs i (List.mem_cons_self i rest)
    obtain ⟨n, cn, hn, hnlk, hnns⟩ := hns i (List.mem_cons_self i rest)
    have hmi := hms i (List.mem_cons_self i rest)
    obtain ⟨rv, hrv⟩ := hv
    have hcri : check_range t1.dcur i = true := slot_check_range t1.dcur i hslot
    have hsN : s < t1.nextC := hfresh (s, cs) (lookup_some_mem _ _ _ hs)
    have hnN : n < t1.nextC := hfresh (n, cn) (lookup_some_mem _ _ _ hnlk)
    have hfreshkey : ∀ p ∈ t1.cells, p.1 ≠ t1.nextC :=
      fun p hp => Nat.ne_of_lt (hfresh p hp)
    -- the four primitive steps
    have e1 := new_full_cell_from_eq t1 s cs hs
    set N := t1.nextC with hN
    set A : T := { t1 with cells := t1.cells ++ [(N, cs)], visited := (if s ∈ t1.visited then insert N t1.visited else t1.visited), nextC := N + 1 } with hA
    have hAslk : lookup A.cells s = some cs := by
      show lookup (t1.cells ++ [(N, cs)]) s = some cs
      rw [lookup_append_old _ _ _ _ (Nat.ne_of_lt hsN)]
      exact hs
    have hANlk : lookup A.cells N = some cs := by
      show lookup (t1.cells ++ [(N, cs)]) N = some cs
      exact lookup_append_new _ _ _ hfreshkey
    have e2 := associate_eq A N i v cs rv hANlk (by show lookup t1.vertices v = some rv; exact hrv) hcri
    set fassoc : Cell → Cell := (fun c => c.setVertex i (some v)) with hfassoc
    set B : T := { A with cells := updateEntry A.cells N fassoc, vertices := updateEntry A.vertices v (fun _ => VertexRec.mk (some N)) } with hB
    have hBslk : lookup B.cells s = some cs := by
      show lookup (updateEntry A.cells N fassoc) s = some cs
      rw [lookup_updateEntry_ne _ _ _ s (Nat.ne_of_lt hsN)]
      exact hAslk
    have hBw : ∃ rw2, lookup B.vertices w = some rw2 := by
      show ∃ rw2, lookup (updateEntry A.vertices v (fun _ => VertexRec.mk (some N))) w = some rw2
      by_cases hwv : w = v
      · subst hwv
        rw [lookup_updateEntry_eq]
        show ∃ rw2, (lookup t1.vertices w).map _ = some rw2
        rw [hwlk]
        exact ⟨_, rfl⟩
      · rw [lookup_updateEntry_ne _ _ _ w hwv]
        exact ⟨rw, hwlk⟩
    obtain ⟨rw2, hw2⟩ := hBw
    have e3 := set_full_cell_of_vertex_eq B w N rw2 hw2
    set C : T := { B with vertices := updateEntry B.vertices w (fun _ => VertexRec.mk (some N)) } with hC
    have hCslk : lookup C.cells s = some cs := hBslk
    have hCNlk : lookup C.cells N = some (fassoc cs) := by
      show lookup (updateEntry A.cells N fassoc) N = some (fassoc cs)
      rw [lookup_updateEntry_eq, hANlk]
      rfl
    have hCnlk : lookup C.cells n = some cn := by
      show lookup (updateEntry A.cells N fassoc) n = some cn
      rw [lookup_updateEntry_ne _ _ _ n (Nat.ne_of_lt hnN)]
      show lookup (t1.cells ++ [(N, cs)]) n = some cn
      rw [lookup_append_old _ _ _ _ (Nat.ne_of_lt hnN)]
      exact hnlk
    have e4 := set_neighbors_eq C N i n (cs.mirrorSlot i) (fassoc cs) cn hCNlk hCnlk (Nat.ne_of_lt hnN) hcri (by show check_range t1.dcur _ = true; exact hmi)
    set fnb : Cell → Cell := (fun c => (c.setNeighbor i (some n)).setMirror i (cs.mirrorSlot i)) with hfnb
    set fsym : Cell → Cell := (fun c => (c.setNeighbor (cs.mirrorSlot i) (some N)).setMirror (cs.mirrorSlot i) i) with hfsym
    set D : T := { C with cells := updateEntry (updateEntry C.cells N fnb) n fsym } with hD
    -- facts about D
    have hDslk : lookup D.cells s = some cs := by
      show lookup (updateEntry (updateEntry C.cells N fnb) n fsym) s = some cs
      rw [lookup_updateEntry_ne _ _ _ s (Ne.symm hnns)]
      rw [lookup_updateEntry_ne _ _ _ s (Nat.ne_of_lt hsN)]
      exact hCslk
    have hDkeys : D.cells.map Prod.fst = t1.cells.map Prod.fst ++ [N] := by
      show (updateEntry (updateEntry (updateEntry (t1.cells ++ [(N, cs)]) N fassoc) N fnb) n fsym).map Prod.fst = _
      rw [updateEntry_keys, updateEntry_keys, updateEntry_keys, List.map_append]
      rfl
    have hDvkeys : D.vertices.map Prod.fst = t1.vertices.map Prod.fst := by
      show (updateEntry (updateEntry t1.vertices v (fun _ => VertexRec.mk (some N))) w (fun _ => VertexRec.mk (some N))).map Prod.fst = _
      rw [updateEntry_keys, updateEntry_keys]
    have hDvlen : D.vertices.length = t1.vertices.length := by
      show (updateEntry (updateEntry t1.vertices v (fun _ => VertexRec.mk (some N))) w (fun _ => VertexRec.mk (some N))).length = _
      rw [updateEntry_length, updateEntry_length]
    have hDlen : D.cells.length = t1.cells.length + 1 := by
      show (updateEntry (updateEntry (updateEntry (t1.cells ++ [(N, cs)]) N fassoc) N fnb) n fsym).length = _
      rw [updateEntry_length, updateEntry_length, updateEntry_length, List.length_append]
      rfl
    have hDfresh : ∀ p ∈ D.cells, p.1 < D.nextC := by
      intro p hp
      have h1 : p.1 ∈ D.cells.map Prod.fst := List.mem_map_of_mem Prod.fst hp
      rw [hDkeys] at h1
      show p.1 < N + 1
      rcases List.mem_append.mp h1 with h2 | h2
      · obtain ⟨q, hq, he⟩ := List.mem_map.mp h2
        have := hfresh q hq
        omega
      · have h3 : p.1 = N := by simpa using h2
        omega
    have hvtrans : ∀ w3, (∃ r3, lookup t1.vertices w3 = some r3) →
        ∃ r3, lookup D.vertices w3 = some r3 := by
      intro w3 hw3
      obtain ⟨r3, hr3⟩ := hw3
      have h1 : w3 ∈ t1.vertices.map Prod.fst :=
        (lookup_isSome_iff _ _).mp (by rw [hr3]; rfl)
      have h2 : (lookup D.vertices w3).isSome = true :=
        (lookup_isSome_iff _ _).mpr (by rw [hDvkeys]; exact h1)
      cases hl : lookup D.vertices w3 with
      | none => rw [hl] at h2; exact absurd h2 (by simp)
      | some r4 => exact ⟨r4, rfl⟩
    have hctrans : ∀ n3, (∃ c3, lookup t1.cells n3 = some c3) →
        ∃ c3, lookup D.cells n3 = some c3 := by
      intro n3 hn3
      obtain ⟨c3, hc3⟩ := hn3
      have h1 : n3 ∈ t1.cells.map Prod.fst :=
        (lookup_isSome_iff _ _).mp (by rw [hc3]; rfl)
      have h2 : (lookup D.cells n3).isSome = true :=
        (lookup_isSome_iff _ _).mpr (by rw [hDkeys]; exact List.mem_append_left _ h1)
      cases hl : lookup D.cells n3 with
      | none => rw [hl] at h2; exact absurd h2 (by simp)
      | some c4 => exact ⟨c4, rfl⟩
    have hDold : ∀ c, c < N → c ≠ s →
        (lookup D.cells c).map Cell.vertexSlot = (lookup t1.cells c).map Cell.vertexSlot ∧
        (lookup D.cells c).isSome = (lookup t1.cells c).isSome := by
      intro c hcN hcs2
      have hstep2 : lookup (updateEntry (updateEntry (t1.cells ++ [(N, cs)]) N fassoc) N fnb) c = lookup t1.cells c := by
        rw [lookup_updateEntry_ne _ _ _ c (Nat.ne_of_lt hcN),
          lookup_updateEntry_ne _ _ _ c (Nat.ne_of_lt hcN),
          lookup_append_old _ _ _ _ (Nat.ne_of_lt hcN)]
      by_cases hcn : c = n
      · subst hcn
        have hthis : lookup D.cells c = (lookup t1.cells c).map fsym := by
          show lookup (updateEntry (updateEntry (updateEntry (t1.cells ++ [(N, cs)]) N fassoc) N fnb) c fsym) c = _
          rw [lookup_updateEntry_eq, hstep2]
        rw [hthis]
        cases hl : lookup t1.cells c <;>
          simp [hfsym, Cell.setNeighbor, Cell.setMirror]
      · have hthis : lookup D.cells c = lookup t1.cells c := by
          show lookup (updateEntry (updateEntry (updateEntry (t1.cells ++ [(N, cs)]) N fassoc) N fnb) n fsym) c = _
          rw [lookup_updateEntry_ne _ _ _ c hcn, hstep2]
        rw [hthis]
        exact ⟨rfl, rfl⟩
    have hDN : lookup D.cells N = some (fnb (fassoc cs)) := by
      show lookup (updateEntry (updateEntry (updateEntry (t1.cells ++ [(N, cs)]) N fassoc) N fnb) n fsym) N = _
      rw [lookup_updateEntry_ne _ _ _ N (Ne.symm (Nat.ne_of_lt hnN)),
        lookup_updateEntry_eq, lookup_updateEntry_eq,
        lookup_append_new _ _ _ hfreshkey]
      rfl
    -- equations for the step
    have hget : getCell B s = .ok cs := by
      unfold getCell
      rw [hBslk]
    have hnbA : neighborA C s i = .ok (some n) := by
      unfold neighborA getCell
      rw [if_pos (show check_range C.dcur i = true from hcri), hCslk]
      show Except.ok (cs.neighborSlot i) = _
      rw [hn]
    have hmiA : mirror_indexA C s i = .ok (cs.mirrorSlot i) := by
      unfold mirror_indexA getCell
      rw [if_pos (show check_range C.dcur i = true from hcri), hCslk]
      rfl
    have hloopstep : insertInFullCellLoop s v t1 fc (i :: rest) =
        insertInFullCellLoop s v D (Function.update fc i (some N)) rest := by
      simp only [insertInFullCellLoop, e1, Except.bind, bind, e2, hget, hw, deref,
        e3, hnbA, derefP, hmiA, e4]
    -- the recursive call
    obtain ⟨t2, fc2fin, heq, hdc, hnc, hlen, hvkeys, hvlen, hslk, hold, hclones,
        hfcout, hfcpos, hfresh2⟩ :=
      ih D (Function.update fc i (some N)) hDslk
        (fun i2 h2 => hLs i2 (List.mem_cons_of_mem i h2))
        (fun i2 h2 => by
          obtain ⟨w2, rw3, hw2a, hw2b⟩ := hvs i2 (List.mem_cons_of_mem i h2)
          obtain ⟨r4, hr4⟩ := hvtrans w2 ⟨rw3, hw2b⟩
          exact ⟨w2, r4, hw2a, hr4⟩)
        (fun i2 h2 => by
          obtain ⟨n2, cn2, hn2a, hn2b, hn2c⟩ := hns i2 (List.mem_cons_of_mem i h2)
          obtain ⟨c4, hc4⟩ := hctrans n2 ⟨cn2, hn2b⟩
          exact ⟨n2, c4, hn2a, hc4, hn2c⟩)
        (fun i2 h2 => hms i2 (List.mem_cons_of_mem i h2))
        (hvtrans v ⟨rv, hrv⟩)
        hDfresh
        (List.Nodup.of_cons hnodup)
    refine ⟨t2, fc2fin, ?_, ?_, ?_, ?_, ?_, ?_, hslk, ?_, ?_, ?_, ?_, hfresh2⟩
    · rw [hloopstep]
      exact heq
    · exact hdc
    · show t2.nextC = N + (i :: rest).length
      rw [hnc]
      show N + 1 + rest.length = N + (i :: rest).length
      rw [List.length_cons]
      omega
    · rw [hlen, hDlen, List.length_cons]
      omega
    · exact hvkeys.trans hDvkeys
    · exact hvlen.trans hDvlen
    · intro c hc hcs2
      obtain ⟨hm1, hi1⟩ := hold c (Nat.lt_succ_of_lt hc) hcs2
      obtain ⟨hm2, hi2⟩ := hDold c hc hcs2
      exact ⟨hm1.trans hm2, hi1.trans hi2⟩
    · intro jdx i2 hj
      cases jdx with
      | zero =>
        have hi2 : i = i2 := by simpa using hj
        subst hi2
        obtain ⟨hmapeq, _⟩ := hold N (Nat.lt_succ_self N) (Ne.symm (Nat.ne_of_lt hsN))
        rw [hDN] at hmapeq
        cases hl : lookup t2.cells N with
        | none => rw [hl] at hmapeq; exact absurd hmapeq (by simp)
        | some cj =>
          rw [hl] at hmapeq
          refine ⟨cj, by rw [Nat.add_zero]; exact hl, ?_⟩
          have : cj.vertexSlot = (fnb (fassoc cs)).vertexSlot := by
            exact Option.some.inj hmapeq
          rw [this]
          rfl
      | succ jdx2 =>
        obtain ⟨cj, hcj1, hcj2⟩ := hclones jdx2 i2 (by simpa using hj)
        refine ⟨cj, ?_, hcj2⟩
        have harith : N + (jdx2 + 1) = N + 1 + jdx2 := by omega
        rw [harith]
        exact hcj1
    · intro i3 h3
      have h3i : i3 ≠ i := fun hc => h3 (hc ▸ List.mem_cons_self i rest)
      have h3r : i3 ∉ rest := fun hc => h3 (List.mem_cons_of_mem i hc)
      rw [hfcout i3 h3r]
      exact Function.update_noteq h3i _ _
    · intro jdx i2 hj
      cases jdx with
      | zero =>
        have hi2 : i = i2 := by simpa using hj
        subst hi2
        have hnotin : i ∉ rest := (List.nodup_cons.mp hnodup).1
        rw [hfcout i hnotin]
        show Function.update fc i (some N) i = some (N + 0)
        rw [Function.update_same, Nat.add_zero]
      | succ jdx2 =>
        have hpos := hfcpos jdx2 i2 (by simpa using hj)
        rw [hpos]
        show some (N + 1 + jdx2) = some (N + (jdx2 + 1))
        congr 1
        omega

end TDS

namespace TDS

/-- Membership in the slot list is exactly the index range `[0, d]`. -/
theorem mem_slotList (d : Int) (i : Int) : i ∈ slotList d ↔ 0 ≤ i ∧ i ≤ d := by
  unfold slotList
  constructor
  · intro h
    obtain ⟨n, hn, he⟩ := List.mem_map.mp h
    rw [List.mem_range] at hn
    subst he
    simp only [Int.ofNat_eq_coe]
    constructor <;> omega
  · intro ⟨h1, h2⟩
    refine List.mem_map.mpr ⟨i.toNat, ?_, ?_⟩
    · rw [List.mem_range]
      omega
    · simp only [Int.ofNat_eq_coe]
      omega

theorem nslot_lookup (t : T) (c : Nat) (cc : Cell) (k : Int)
    (h : lookup t.cells c = some cc) : nslot t c k = cc.neighborSlot k := by
  unfold nslot
  rw [h]

theorem mslot_lookup (t : T) (c : Nat) (cc : Cell) (k : Int)
    (h : lookup t.cells c = some cc) : mslot t c k = some (cc.mirrorSlot k) := by
  unfold mslot
  rw [h]

theorem vslot_lookup (t : T) (c : Nat) (cc : Cell) (k : Int)
    (h : lookup t.cells c = some cc) : vslot t c k = cc.vertexSlot k := by
  unfold vslot
  rw [h]

/-- Full effect of `set_neighbors(a, i, b, j)` on the state (distinct
cells): it establishes the four slot writes and frames everything else. -/
theorem set_neighbors_effect (t : T) (a : Nat) (i : Int) (b : Nat) (j : Int)
    (ca cb : Cell)
    (ha : lookup t.cells a = some ca) (hb : lookup t.cells b = some cb)
    (hab : b ≠ a)
    (hci : check_range t.dcur i = true) (hcj : check_range t.dcur j = true) :
    ∃ t2, set_neighbors t a i b j = .ok t2 ∧
      t2.dcur = t.dcur ∧ t2.vertices = t.vertices ∧ t2.nextC = t.nextC ∧
      t2.nextV = t.nextV ∧ t2.visited = t.visited ∧
      t2.cells.map Prod.fst = t.cells.map Prod.fst ∧
      t2.cells.length = t.cells.length ∧
      (∀ c, (lookup t2.cells c).map Cell.vertexSlot = (lookup t.cells c).map Cell.vertexSlot) ∧
      (∀ c, (lookup t2.cells c).isSome = (lookup t.cells c).isSome) ∧
      nslot t2 a i = some b ∧ mslot t2 a i = some j ∧
      nslot t2 b j = some a ∧ mslot t2 b j = some i ∧
      (∀ c k, (c ≠ a ∨ k ≠ i) → (c ≠ b ∨ k ≠ j) →
        nslot t2 c k = nslot t c k ∧ mslot t2 c k = mslot t c k) := by
  have hcells : ({ t with cells := updateEntry (updateEntry t.cells a (fun c => (c.setNeighbor i (some b)).setMirror i j)) b (fun c => (c.setNeighbor j (some a)).setMirror j i) } : T).cells = updateEntry (updateEntry t.cells a (fun c => (c.setNeighbor i (some b)).setMirror i j)) b (fun c => (c.setNeighbor j (some a)).setMirror j i) := rfl
  have hluA : lookup (updateEntry (updateEntry t.cells a (fun c => (c.setNeighbor i (some b)).setMirror i j)) b (fun c => (c.setNeighbor j (some a)).setMirror j i)) a = some ((ca.setNeighbor i (some b)).setMirror i j) := by
    rw [lookup_updateEntry_ne _ _ _ a (Ne.symm hab), lookup_updateEntry_eq, ha]
    rfl
  have hluB : lookup (updateEntry (updateEntry t.cells a (fun c => (c.setNeighbor i (some b)).setMirror i j)) b (fun c => (c.setNeighbor j (some a)).setMirror j i)) b = some ((cb.setNeighbor j (some a)).setMirror j i) := by
    rw [lookup_updateEntry_eq, lookup_updateEntry_ne _ _ _ b hab, hb]
    rfl
  have hluO : ∀ c : Nat, c ≠ a → c ≠ b → lookup (updateEntry (updateEntry t.cells a (fun c => (c.setNeighbor i (some b)).setMirror i j)) b (fun c => (c.setNeighbor j (some a)).setMirror j i)) c = lookup t.cells c := by
    intro c h1 h2
    rw [lookup_updateEntry_ne _ _ _ c h2, lookup_updateEntry_ne _ _ _ c h1]
  refine ⟨_, set_neighbors_eq t a i b j ca cb ha hb hab hci hcj, rfl, rfl, rfl, rfl, rfl, ?_, ?_, ?_, ?_, ?_, ?_, ?_, ?_, ?_⟩
  · rw [hcells, updateEntry_keys, updateEntry_keys]
  · rw [hcells, updateEntry_length, updateEntry_length]
  · intro c
    rw [hcells]
    by_cases hcb : c = b
    · rw [hcb, hluB, hb]
      rfl
    · by_cases hca : c = a
      · rw [hca, hluA, ha]
        rfl
      · rw [hluO c hca hcb]
  · intro c
    rw [hcells]
    by_cases hcb : c = b
    · rw [hcb, hluB, hb]
      rfl
    · by_cases hca : c = a
      · rw [hca, hluA, ha]
        rfl
      · rw [hluO c hca hcb]
  · unfold nslot
    rw [hcells, hluA]
    show Function.update ca.neighborSlot i (some b) i = some b
    rw [Function.update_same]
  · unfold mslot
    rw [hcells, hluA]
    show some (Function.update ca.mirrorSlot i j i) = some j
    rw [Function.update_same]
  · unfold nslot
    rw [hcells, hluB]
    show Function.update cb.neighborSlot j (some a) j = some a
    rw [Function.update_same]
  · unfold mslot
    rw [hcells, hluB]
    show some (Function.update cb.mirrorSlot j i j) = some i
    rw [Function.update_same]
  · intro c k hc1 hc2
    unfold nslot mslot
    rw [hcells]
    by_cases hcb : c = b
    · have hkj : k ≠ j := by
        rcases hc2 with h | h
        · exact absurd hcb h
        · exact h
      rw [hcb, hluB, hb]
      constructor
      · show Function.update cb.neighborSlot j (some a) k = cb.neighborSlot k
        rw [Function.update_noteq hkj]
      · show some (Function.update cb.mirrorSlot j i k) = some (cb.mirrorSlot k)
        rw [Function.update_noteq hkj]
    · by_cases hca : c = a
      · have hki : k ≠ i := by
          rcases hc1 with h | h
          · exact absurd hca h
          · exact h
        rw [hca, hluA, ha]
        constructor
        · show Function.update ca.neighborSlot i (some b) k = ca.neighborSlot k
          rw [Function.update_noteq hki]
        · show some (Function.update ca.mirrorSlot i j k) = some (ca.mirrorSlot k)
          rw [Function.update_noteq hki]
      · rw [hluO c hca hcb]
        exact ⟨rfl, rfl⟩

end TDS

namespace TDS

/-- Inner cross-linking loop of `insert_in_full_cell`: for a scratch
cell `fc` defined and injective on the slot range, the pass over `FL`
links the `i`-th cell with every `j`-th cell (`j ∈ FL`, `j ≠ i`) in both
directions, frames vertex slots and the pools, and preserves every
previously established link between distinct slots. -/
theorem insertInFullCellLinkInner_spec (fc : Int → Option Nat) (d : Int) (i : Int)
    (hi : i ∈ slotList d)
    (hinj : ∀ k1 k2 a, k1 ∈ slotList d → k2 ∈ slotList d →
      fc k1 = some a → fc k2 = some a → k1 = k2)
    (hdom : ∀ k, k ∈ slotList d → ∃ a, fc k = some a) :
    ∀ (FL : List Int) (t3 : T),
    t3.dcur = d →
    (∀ k, k ∈ FL → k ∈ slotList d) →
    (∀ k a, k ∈ slotList d → fc k = some a → (lookup t3.cells a).isSome = true) →
    ∃ t4, insertInFullCellLinkInner fc i t3 FL = .ok t4 ∧
      t4.dcur = t3.dcur ∧ t4.vertices = t3.vertices ∧ t4.nextC = t3.nextC ∧
      t4.nextV = t3.nextV ∧ t4.visited = t3.visited ∧
      t4.cells.map Prod.fst = t3.cells.map Prod.fst ∧
      t4.cells.length = t3.cells.length ∧
      (∀ c, (lookup t4.cells c).map Cell.vertexSlot = (lookup t3.cells c).map Cell.vertexSlot) ∧
      (∀ c, (lookup t4.cells c).isSome = (lookup t3.cells c).isSome) ∧
      (∀ j, j ∈ FL → j ≠ i → LinkedAt t4 fc i j ∧ LinkedAt t4 fc j i) ∧
      (∀ i2 j2, i2 ∈ slotList d → j2 ∈ slotList d → i2 ≠ j2 →
        LinkedAt t3 fc i2 j2 → LinkedAt t4 fc i2 j2) := by
  intro FL
  induction FL with
  | nil =>
    intro t3 hd hFL hlive
    refine ⟨t3, rfl, rfl, rfl, rfl, rfl, rfl, rfl, rfl, ?_, ?_, ?_, ?_⟩
    · intro c
      rfl
    · intro c
      rfl
    · intro j hj _
      exact absurd hj (by simp)
    · intro i2 j2 _ _ _ h
      exact h
  | cons j FL ih =>
    intro t3 hd hFL hlive
    have hjmem : j ∈ slotList d := hFL j (List.mem_cons_self j FL)
    unfold insertInFullCellLinkInner
    by_cases hji : j = i
    · rw [if_pos hji]
      obtain ⟨t4, hrun, h1, h2, h3, h4, h5, h6, h7, h8, h9, hP1, hP2⟩ :=
        ih t3 hd (fun k hk => hFL k (List.mem_cons_of_mem j hk)) hlive
      refine ⟨t4, hrun, h1, h2, h3, h4, h5, h6, h7, h8, h9, ?_, hP2⟩
      intro j2 hj2 hj2i
      rcases List.mem_cons.mp hj2 with he | he
      · exact absurd (he.trans hji) hj2i
      · exact hP1 j2 he hj2i
    · rw [if_neg hji]
      obtain ⟨a, hfa⟩ := hdom i hi
      obtain ⟨b, hfb⟩ := hdom j hjmem
      have hab : b ≠ a := by
        intro he
        subst he
        exact hji (hinj j i b hjmem hi hfb hfa)
      obtain ⟨ca, ha⟩ := Option.isSome_iff_exists.mp (hlive i a hi hfa)
      obtain ⟨cb, hb⟩ := Option.isSome_iff_exists.mp (hlive j b hjmem hfb)
      have hcrj : check_range t3.dcur j = true := by
        rw [hd]
        exact slot_check_range d j hjmem
      have hcri : check_range t3.dcur i = true := by
        rw [hd]
        exact slot_check_range d i hi
      obtain ⟨t2, hsn, e1, e2, e3, e4, e5, e6, e7, e8, e9, hnaj, hmaj, hnbi, hmbi, hframe⟩ :=
        set_neighbors_effect t3 a j b i ca cb ha hb hab hcrj hcri
      have hL2ij : LinkedAt t2 fc i j := by
        intro a2 b2 hfa2 hfb2
        have haa : a2 = a := Option.some.inj (hfa2.symm.trans hfa)
        have hbb : b2 = b := Option.some.inj (hfb2.symm.trans hfb)
        rw [haa, hbb]
        exact ⟨hnaj, hmaj⟩
      have hL2ji : LinkedAt t2 fc j i := by
        intro b2 a2 hfb2 hfa2
        have haa : a2 = a := Option.some.inj (hfa2.symm.trans hfa)
        have hbb : b2 = b := Option.some.inj (hfb2.symm.trans hfb)
        rw [haa, hbb]
        exact ⟨hnbi, hmbi⟩
      have hP2step : ∀ i2 j2, i2 ∈ slotList d → j2 ∈ slotList d → i2 ≠ j2 →
          LinkedAt t3 fc i2 j2 → LinkedAt t2 fc i2 j2 := by
        intro i2 j2 hi2 hj2 hne hL a2 b2 hfa2 hfb2
        by_cases h1 : i2 = i
        · by_cases h2 : j2 = j
          · subst h1
            subst h2
            have haa : a2 = a := Option.some.inj (hfa2.symm.trans hfa)
            have hbb : b2 = b := Option.some.inj (hfb2.symm.trans hfb)
            rw [haa, hbb]
            exact ⟨hnaj, hmaj⟩
          · obtain ⟨hn3, hm3⟩ := hL a2 b2 hfa2 hfb2
            have hj2i : j2 ≠ i := by
              subst h1
              exact fun hc => hne hc.symm
            obtain ⟨hfn, hfm⟩ := hframe a2 j2 (Or.inr h2) (Or.inr hj2i)
            exact ⟨hfn.trans hn3, hfm.trans hm3⟩
        · by_cases h2 : i2 = j
          · by_cases h3 : j2 = i
            · subst h2
              subst h3
              have haa : a2 = b := Option.some.inj (hfa2.symm.trans hfb)
              have hbb : b2 = a := Option.some.inj (hfb2.symm.trans hfa)
              rw [haa, hbb]
              exact ⟨hnbi, hmbi⟩
            · obtain ⟨hn3, hm3⟩ := hL a2 b2 hfa2 hfb2
              have ha2a : a2 ≠ a := by
                intro hc
                exact h1 (hinj i2 i a2 hi2 hi hfa2 (by rw [hc]; exact hfa))
              obtain ⟨hfn, hfm⟩ := hframe a2 j2 (Or.inl ha2a) (Or.inr h3)
              exact ⟨hfn.trans hn3, hfm.trans hm3⟩
          · obtain ⟨hn3, hm3⟩ := hL a2 b2 hfa2 hfb2
            have ha2a : a2 ≠ a := by
              intro hc
              exact h1 (hinj i2 i a2 hi2 hi hfa2 (by rw [hc]; exact hfa))
            have ha2b : a2 ≠ b := by
              intro hc
              exact h2 (hinj i2 j a2 hi2 hjmem hfa2 (by rw [hc]; exact hfb))
            obtain ⟨hfn, hfm⟩ := hframe a2 j2 (Or.inl ha2a) (Or.inl ha2b)
            exact ⟨hfn.trans hn3, hfm.trans hm3⟩
      have hd2 : t2.dcur = d := e1.trans hd
      have hlive2 : ∀ k a2, k ∈ slotList d → fc k = some a2 →
          (lookup t2.cells a2).isSome = true := by
        intro k a2 hk hfk
        rw [e9 a2]
        exact hlive k a2 hk hfk
      obtain ⟨t4, hrun, h1, h2, h3, h4, h5, h6, h7, h8, h9, hP1, hP2⟩ :=
        ih t2 hd2 (fun k hk => hFL k (List.mem_cons_of_mem j hk)) hlive2
      refine ⟨t4, ?_, h1.trans e1, h2.trans e2, h3.trans e3, h4.trans e4,
        h5.trans e5, h6.trans e6, h7.trans e7,
        (fun c => (h8 c).trans (e8 c)), (fun c => (h9 c).trans (e9 c)), ?_, ?_⟩
      · show (derefP (fc i) >>= fun a2 => derefP (fc j) >>= fun b2 =>
          set_neighbors t3 a2 j b2 i >>= fun t5 =>
          insertInFullCellLinkInner fc i t5 FL) = .ok t4
        rw [hfa, hfb]
        show set_neighbors t3 a j b i >>= (fun t5 =>
          insertInFullCellLinkInner fc i t5 FL) = .ok t4
        rw [hsn]
        show insertInFullCellLinkInner fc i t2 FL = .ok t4
        exact hrun
      · intro j2 hj2 hj2i
        rcases List.mem_cons.mp hj2 with he | he
        · subst he
          constructor
          · exact hP2 i j2 hi hjmem (fun h => hji h.symm) hL2ij
          · exact hP2 j2 i hjmem hi hji hL2ji
        · exact hP1 j2 he hj2i
      · intro i2 j2 hi2 hj2 hne hL
        exact hP2 i2 j2 hi2 hj2 hne (hP2step i2 j2 hi2 hj2 hne hL)

end TDS

namespace TDS

/-- Outer cross-linking loop of `insert_in_full_cell`, run with the full
slot list as the inner range: every cell recorded in `fc` at a slot of
`OL` ends up linked to every other recorded cell. -/
theorem insertInFullCellLinkOuter_spec (fc : Int → Option Nat) (d : Int)
    (hinj : ∀ k1 k2 a, k1 ∈ slotList d → k2 ∈ slotList d →
      fc k1 = some a → fc k2 = some a → k1 = k2)
    (hdom : ∀ k, k ∈ slotList d → ∃ a, fc k = some a) :
    ∀ (OL : List Int) (t3 : T),
    t3.dcur = d →
    (∀ k, k ∈ OL → k ∈ slotList d) →
    (∀ k a, k ∈ slotList d → fc k = some a → (lookup t3.cells a).isSome = true) →
    ∃ t4, insertInFullCellLinkOuter fc (slotList d) t3 OL = .ok t4 ∧
      t4.dcur = t3.dcur ∧ t4.vertices = t3.vertices ∧ t4.nextC = t3.nextC ∧
      t4.nextV = t3.nextV ∧ t4.visited = t3.visited ∧
      t4.cells.map Prod.fst = t3.cells.map Prod.fst ∧
      t4.cells.length = t3.cells.length ∧
      (∀ c, (lookup t4.cells c).map Cell.vertexSlot = (lookup t3.cells c).map Cell.vertexSlot) ∧
      (∀ c, (lookup t4.cells c).isSome = (lookup t3.cells c).isSome) ∧
      (∀ i j, i ∈ OL → j ∈ slotList d → j ≠ i → LinkedAt t4 fc i j) ∧
      (∀ i2 j2, i2 ∈ slotList d → j2 ∈ slotList d → i2 ≠ j2 →
        LinkedAt t3 fc i2 j2 → LinkedAt t4 fc i2 j2) := by
  intro OL
  induction OL with
  | nil =>
    intro t3 hd hOL hlive
    refine ⟨t3, rfl, rfl, rfl, rfl, rfl, rfl, rfl, rfl, ?_, ?_, ?_, ?_⟩
    · intro c
      rfl
    · intro c
      rfl
    · intro i j hi _ _
      exact absurd hi (by simp)
    · intro i2 j2 _ _ _ h
      exact h
  | cons i OL ih =>
    intro t3 hd hOL hlive
    have himem : i ∈ slotList d := hOL i (List.mem_cons_self i OL)
    obtain ⟨t2, hrunI, e1, e2, e3, e4, e5, e6, e7, e8, e9, hP1, hP2i⟩ :=
      insertInFullCellLinkInner_spec fc d i himem hinj hdom (slotList d) t3 hd
        (fun k hk => hk) hlive
    have hd2 : t2.dcur = d := e1.trans hd
    have hlive2 : ∀ k a2, k ∈ slotList d → fc k = some a2 →
        (lookup t2.cells a2).isSome = true := by
      intro k a2 hk hfk
      rw [e9 a2]
      exact hlive k a2 hk hfk
    obtain ⟨t4, hrun, h1, h2, h3, h4, h5, h6, h7, h8, h9, hQ1, hQ2⟩ :=
      ih t2 hd2 (fun k hk => hOL k (List.mem_cons_of_mem i hk)) hlive2
    refine ⟨t4, ?_, h1.trans e1, h2.trans e2, h3.trans e3, h4.trans e4,
      h5.trans e5, h6.trans e6, h7.trans e7,
      (fun c => (h8 c).trans (e8 c)), (fun c => (h9 c).trans (e9 c)), ?_, ?_⟩
    · show (insertInFullCellLinkInner fc i t3 (slotList d) >>= fun t5 =>
        insertInFullCellLinkOuter fc (slotList d) t5 OL) = .ok t4
      rw [hrunI]
      show insertInFullCellLinkOuter fc (slotList d) t2 OL = .ok t4
      exact hrun
    · intro i2 j hi2 hj hji
      rcases List.mem_cons.mp hi2 with he | he
      · subst he
        have hL2 : LinkedAt t2 fc i2 j := (hP1 j hj hji).1
        exact hQ2 i2 j himem hj (fun h => hji h.symm) hL2
      · exact hQ1 i2 j he hj hji
    · intro i2 j2 hi2 hj2 hne hL
      exact hQ2 i2 j2 hi2 hj2 hne (hP2i i2 j2 hi2 hj2 hne hL)

end TDS

namespace TDS

theorem slotList_drop_one (d : Int) (hd : 0 ≤ d) :
    (slotList d).drop 1 = (List.range d.toNat).map (fun k => Int.ofNat (k + 1)) := by
  unfold slotList
  rw [show (d + 1).toNat = d.toNat + 1 from by omega, List.range_succ_eq_map,
    List.map_cons, List.drop_one, List.tail_cons, List.map_map]
  rfl

theorem mem_drop_one_slotList (d : Int) (hd : 0 ≤ d) (i : Int) :
    i ∈ (slotList d).drop 1 ↔ (1 ≤ i ∧ i ≤ d) := by
  rw [slotList_drop_one d hd]
  constructor
  · intro h
    obtain ⟨k, hk, he⟩ := List.mem_map.mp h
    rw [List.mem_range] at hk
    subst he
    simp only [Int.ofNat_eq_coe]
    constructor <;> omega
  · intro ⟨h1, h2⟩
    refine List.mem_map.mpr ⟨i.toNat - 1, ?_, ?_⟩
    · rw [List.mem_range]
      omega
    · simp only [Int.ofNat_eq_coe]
      omega

theorem get_drop_one_slotList (d : Int) (hd : 0 ≤ d) (jdx : Nat) (hj : jdx < d.toNat) :
    ((slotList d).drop 1).get? jdx = some (Int.ofNat (jdx + 1)) := by
  rw [slotList_drop_one d hd, List.get?_map, List.get?_range hj]
  rfl

theorem nodup_drop_one_slotList (d : Int) (hd : 0 ≤ d) :
    ((slotList d).drop 1).Nodup := by
  rw [slotList_drop_one d hd]
  refine List.Nodup.map ?_ (List.nodup_range d.toNat)
  intro a b h
  simp only [Int.ofNat_eq_coe] at h
  omega

theorem length_drop_one_slotList (d : Int) (hd : 0 ≤ d) :
    ((slotList d).drop 1).length = d.toNat := by
  rw [slotList_drop_one d hd, List.length_map, List.length_range]

end TDS

namespace TDS

/-- C6: for a full cell `s` of a triangulation of current dimension
`d ≥ 1` (slots of `s` populated by live vertices, side neighbors live and
distinct from `s`, mirror indices in range, pools fresh),
`insert_in_full_cell(s)` creates one new vertex `v = nextV` and exactly
`d` new full cells cloned from `s`: the `i`-th clone (`i = 1..d`, id
`nextC + (i-1)`) carries `v` at slot `i` and `s`'s vertices elsewhere,
`s` itself is reused as the 0-th cell with `v` at slot 0, the `d+1`
cells around `v` are cross-linked pairwise as neighbors with matching
mirror indices, the vertex count grows by 1, the full-cell count grows
by `d`, and every other cell keeps its vertex slots. -/
theorem c6_insert_in_full_cell (t : T) (s : Nat) (cs : Cell)
    (h0 : 0 < t.dcur)
    (hs : lookup t.cells s = some cs)
    (hfreshC : ∀ p ∈ t.cells, p.1 < t.nextC)
    (hfreshV : ∀ p ∈ t.vertices, p.1 < t.nextV)
    (hv : ∀ i, i ∈ slotList t.dcur →
      ∃ w rw2, cs.vertexSlot i = some w ∧ lookup t.vertices w = some rw2)
    (hn : ∀ i, i ∈ slotList t.dcur → 1 ≤ i →
      ∃ n cn, cs.neighborSlot i = some n ∧ lookup t.cells n = some cn ∧ n ≠ s)
    (hm : ∀ i, i ∈ slotList t.dcur → 1 ≤ i →
      check_range t.dcur (cs.mirrorSlot i) = true) :
    ∃ t4, insert_in_full_cell t s = .ok (t4, t.nextV) ∧
      number_of_vertices t4 = number_of_vertices t + 1 ∧
      number_of_full_cells t4 = number_of_full_cells t + t.dcur.toNat ∧
      vslot t4 s 0 = some t.nextV ∧
      (∀ k, k ≠ 0 → vslot t4 s k = cs.vertexSlot k) ∧
      (∀ i, i ∈ slotList t.dcur → 1 ≤ i →
        vslot t4 (t.nextC + (i.toNat - 1)) i = some t.nextV ∧
        ∀ k, k ≠ i → vslot t4 (t.nextC + (i.toNat - 1)) k = cs.vertexSlot k) ∧
      (∀ i j, i ∈ slotList t.dcur → j ∈ slotList t.dcur → j ≠ i →
        nslot t4 (if i = 0 then s else t.nextC + (i.toNat - 1)) j =
          some (if j = 0 then s else t.nextC + (j.toNat - 1)) ∧
        mslot t4 (if i = 0 then s else t.nextC + (i.toNat - 1)) j = some i) ∧
      (∀ c, c < t.nextC → c ≠ s →
        (lookup t4.cells c).map Cell.vertexSlot = (lookup t.cells c).map Cell.vertexSlot) := by
  have hd0 : (0 : Int) ≤ t.dcur := le_of_lt h0
  have hsN : s < t.nextC := hfreshC (s, cs) (lookup_some_mem _ _ _ hs)
  set L : List Int := (slotList t.dcur).drop 1 with hL
  set t1 : T := { t with vertices := t.vertices ++ [(t.nextV, VertexRec.mk none)], nextV := t.nextV + 1 } with ht1
  have hs1 : lookup t1.cells s = some cs := hs
  have hLs : ∀ i ∈ L, i ∈ slotList t1.dcur ∧ 1 ≤ i := by
    intro i hi
    rw [hL, mem_drop_one_slotList t.dcur hd0 i] at hi
    exact ⟨(mem_slotList t.dcur i).mpr ⟨by omega, hi.2⟩, hi.1⟩
  have hvsL : ∀ i ∈ L, ∃ w rw2, cs.vertexSlot (i - 1) = some w ∧ lookup t1.vertices w = some rw2 := by
    intro i hi
    rw [hL, mem_drop_one_slotList t.dcur hd0 i] at hi
    obtain ⟨w, rw2, hw, hwlk⟩ := hv (i - 1) ((mem_slotList t.dcur (i - 1)).mpr ⟨by omega, by omega⟩)
    refine ⟨w, rw2, hw, ?_⟩
    show lookup (t.vertices ++ [(t.nextV, VertexRec.mk none)]) w = some rw2
    rw [lookup_append_old _ _ _ _ (Nat.ne_of_lt (hfreshV (w, rw2) (lookup_some_mem _ _ _ hwlk)))]
    exact hwlk
  have hnsL : ∀ i ∈ L, ∃ n cn, cs.neighborSlot i = some n ∧ lookup t1.cells n = some cn ∧ n ≠ s := by
    intro i hi
    rw [hL, mem_drop_one_slotList t.dcur hd0 i] at hi
    exact hn i ((mem_slotList t.dcur i).mpr ⟨by omega, hi.2⟩) hi.1
  have hmsL : ∀ i ∈ L, check_range t1.dcur (cs.mirrorSlot i) = true := by
    intro i hi
    rw [hL, mem_drop_one_slotList t.dcur hd0 i] at hi
    exact hm i ((mem_slotList t.dcur i).mpr ⟨by omega, hi.2⟩) hi.1
  have hvlive : ∃ rv, lookup t1.vertices t.nextV = some rv := by
    refine ⟨VertexRec.mk none, ?_⟩
    show lookup (t.vertices ++ [(t.nextV, VertexRec.mk none)]) t.nextV = some (VertexRec.mk none)
    exact lookup_append_new _ _ _ (fun p hp => Nat.ne_of_lt (hfreshV p hp))
  have hfresh1 : ∀ p ∈ t1.cells, p.1 < t1.nextC := hfreshC
  have hnodupL : L.Nodup := by
    rw [hL]
    exact nodup_drop_one_slotList t.dcur hd0
  obtain ⟨T2, fc2, hrunL, hT2d, hT2nc, hT2len, hT2vk, hT2vlen, hT2s, hT2old, hT2clone, hfc2out, hfc2get, hT2fresh⟩ :=
    insertInFullCellLoop_spec s t.nextV cs L t1 (fun _ => none) hs1 hLs hvsL hnsL hmsL hvlive hfresh1 hnodupL
  have hT2vlive : (lookup T2.vertices t.nextV).isSome = true := by
    rw [lookup_isSome_iff, hT2vk, ← lookup_isSome_iff]
    obtain ⟨rv, hrv⟩ := hvlive
    rw [hrv]
    rfl
  obtain ⟨rv, hrv⟩ := Option.isSome_iff_exists.mp hT2vlive
  have hcr0 : check_range T2.dcur 0 = true := by
    rw [hT2d]
    show check_range t.dcur 0 = true
    exact slot_check_range t.dcur 0 ((mem_slotList t.dcur 0).mpr ⟨le_refl 0, hd0⟩)
  have hassoc := associate_eq T2 s 0 t.nextV cs rv hT2s hrv hcr0
  set T3 : T := { T2 with cells := updateEntry T2.cells s (fun c => c.setVertex 0 (some t.nextV)), vertices := updateEntry T2.vertices t.nextV (fun _ => VertexRec.mk (some s)) } with hT3
  set fc : Int → Option Nat := Function.update fc2 0 (some s) with hfcdef
  have hT3d : T3.dcur = t.dcur := hT2d
  have hgetL : ∀ k : Int, k ∈ slotList t.dcur → k ≠ 0 → L.get? (k.toNat - 1) = some k := by
    intro k hk hk0
    have hkr := (mem_slotList t.dcur k).mp hk
    rw [hL, get_drop_one_slotList t.dcur hd0 (k.toNat - 1) (by omega)]
    rw [show Int.ofNat ((k.toNat - 1) + 1) = k from by simp only [Int.ofNat_eq_coe]; omega]
  have hfcs : ∀ k, k ∈ slotList t.dcur → fc k = some (if k = 0 then s else t.nextC + (k.toNat - 1)) := by
    intro k hk
    by_cases hk0 : k = 0
    · subst hk0
      rw [if_pos rfl, hfcdef]
      exact Function.update_same _ _ _
    · rw [if_neg hk0, hfcdef]
      have hval : fc2 k = some (t.nextC + (k.toNat - 1)) := hfc2get (k.toNat - 1) k (hgetL k hk hk0)
      rw [Function.update_noteq hk0, hval]
  have hinjF : ∀ k1 k2 a, k1 ∈ slotList t.dcur → k2 ∈ slotList t.dcur →
      fc k1 = some a → fc k2 = some a → k1 = k2 := by
    intro k1 k2 a hk1 hk2 hv1 hv2
    rw [hfcs k1 hk1] at hv1
    rw [hfcs k2 hk2] at hv2
    have he := (Option.some.inj hv1).trans (Option.some.inj hv2).symm
    have hr1 := (mem_slotList t.dcur k1).mp hk1
    have hr2 := (mem_slotList t.dcur k2).mp hk2
    by_cases h10 : k1 = 0 <;> by_cases h20 : k2 = 0
    · rw [h10, h20]
    · rw [if_pos h10, if_neg h20] at he
      omega
    · rw [if_neg h10, if_pos h20] at he
      omega
    · rw [if_neg h10, if_neg h20] at he
      omega
  have hdomF : ∀ k, k ∈ slotList t.dcur → ∃ a, fc k = some a :=
    fun k hk => ⟨_, hfcs k hk⟩
  have hliveT3 : ∀ k a, k ∈ slotList t.dcur → fc k = some a →
      (lookup T3.cells a).isSome = true := by
    intro k a hk hfk
    rw [hfcs k hk] at hfk
    have ha := Option.some.inj hfk
    by_cases hk0 : k = 0
    · rw [if_pos hk0] at ha
      rw [← ha]
      show (lookup (updateEntry T2.cells s (fun c => c.setVertex 0 (some t.nextV))) s).isSome = true
      rw [lookup_updateEntry_eq, hT2s]
      rfl
    · rw [if_neg hk0] at ha
      obtain ⟨cj, hcj, _⟩ := hT2clone (k.toNat - 1) k (hgetL k hk hk0)
      have hcj2 : lookup T2.cells (t.nextC + (k.toNat - 1)) = some cj := hcj
      rw [← ha]
      show (lookup (updateEntry T2.cells s (fun c => c.setVertex 0 (some t.nextV))) (t.nextC + (k.toNat - 1))).isSome = true
      rw [lookup_updateEntry_ne _ _ _ _ (by omega : t.nextC + (k.toNat - 1) ≠ s), hcj2]
      rfl
  obtain ⟨t4, hrunO, o1, o2, o3, o4, o5, o6, o7, o8, o9, hQ1, hQ2⟩ :=
    insertInFullCellLinkOuter_spec fc t.dcur hinjF hdomF (slotList t.dcur) T3 hT3d (fun k hk => hk) hliveT3
  have hT3s : lookup T3.cells s = some (cs.setVertex 0 (some t.nextV)) := by
    show lookup (updateEntry T2.cells s (fun c => c.setVertex 0 (some t.nextV))) s = _
    rw [lookup_updateEntry_eq, hT2s]
    rfl
  have hs4 : ∃ cc, lookup t4.cells s = some cc ∧ cc.vertexSlot = Function.update cs.vertexSlot 0 (some t.nextV) := by
    have h := o8 s
    rw [hT3s] at h
    have h2 : (lookup t4.cells s).map Cell.vertexSlot = some (Function.update cs.vertexSlot 0 (some t.nextV)) := h
    obtain ⟨cc, hcc, hccvs⟩ := Option.map_eq_some'.mp h2
    exact ⟨cc, hcc, hccvs⟩
  obtain ⟨ccs, hccs, hccsvs⟩ := hs4
  refine ⟨t4, ?_, ?_, ?_, ?_, ?_, ?_, ?_, ?_⟩
  · unfold insert_in_full_cell
    rw [if_neg (not_not_intro h0)]
    show (insertInFullCellLoop s t.nextV t1 (fun _ => none) L >>= fun r =>
      associate_vertex_with_full_cell r.1 s 0 t.nextV >>= fun t3 =>
      insertInFullCellLinkOuter (Function.update r.2 0 (some s)) (slotList t.dcur) t3 (slotList t.dcur) >>= fun t5 =>
      .ok (t5, t.nextV)) = .ok (t4, t.nextV)
    rw [hrunL]
    show (associate_vertex_with_full_cell T2 s 0 t.nextV >>= fun t3 =>
      insertInFullCellLinkOuter fc (slotList t.dcur) t3 (slotList t.dcur) >>= fun t5 =>
      .ok (t5, t.nextV)) = .ok (t4, t.nextV)
    rw [hassoc]
    show (insertInFullCellLinkOuter fc (slotList t.dcur) T3 (slotList t.dcur) >>= fun t5 =>
      (Except.ok (t5, t.nextV) : Except Err (T × Nat))) = .ok (t4, t.nextV)
    rw [hrunO]
    rfl
  · show t4.vertices.length = t.vertices.length + 1
    rw [o2]
    show (updateEntry T2.vertices t.nextV (fun _ => VertexRec.mk (some s))).length = _
    rw [updateEntry_length, hT2vlen]
    show (t.vertices ++ [(t.nextV, VertexRec.mk none)]).length = _
    rw [List.length_append]
    rfl
  · show t4.cells.length = t.cells.length + t.dcur.toNat
    rw [o7]
    show (updateEntry T2.cells s (fun c => c.setVertex 0 (some t.nextV))).length = _
    rw [updateEntry_length, hT2len]
    show t.cells.length + L.length = t.cells.length + t.dcur.toNat
    rw [hL, length_drop_one_slotList t.dcur hd0]
  · rw [vslot_lookup t4 s ccs 0 hccs, hccsvs]
    exact Function.update_same _ _ _
  · intro k hk0
    rw [vslot_lookup t4 s ccs k hccs, hccsvs]
    exact Function.update_noteq hk0 _ _
  · intro i hi h1i
    obtain ⟨cj, hcj, hcjvs⟩ := hT2clone (i.toNat - 1) i (hgetL i hi (by omega))
    have hcj2 : lookup T2.cells (t.nextC + (i.toNat - 1)) = some cj := hcj
    have hT3c : lookup T3.cells (t.nextC + (i.toNat - 1)) = some cj := by
      show lookup (updateEntry T2.cells s (fun c => c.setVertex 0 (some t.nextV))) (t.nextC + (i.toNat - 1)) = some cj
      rw [lookup_updateEntry_ne _ _ _ _ (by omega : t.nextC + (i.toNat - 1) ≠ s)]
      exact hcj2
    have h := o8 (t.nextC + (i.toNat - 1))
    rw [hT3c] at h
    have h2 : (lookup t4.cells (t.nextC + (i.toNat - 1))).map Cell.vertexSlot = some (Function.update cs.vertexSlot i (some t.nextV)) := by
      rw [h]
      show some cj.vertexSlot = _
      rw [hcjvs]
    obtain ⟨cc, hcc, hccvs⟩ := Option.map_eq_some'.mp h2
    constructor
    · rw [vslot_lookup t4 _ cc i hcc, hccvs]
      exact Function.update_same _ _ _
    · intro k hk
      rw [vslot_lookup t4 _ cc k hcc, hccvs]
      exact Function.update_noteq hk _ _
  · intro i j hi hj hji
    exact hQ1 i j hi hj hji _ _ (hfcs i hi) (hfcs j hj)
  · intro c hc hcs2
    have h := o8 c
    have hT3c : lookup T3.cells c = lookup T2.cells c := by
      show lookup (updateEntry T2.cells s (fun c2 => c2.setVertex 0 (some t.nextV))) c = _
      exact lookup_updateEntry_ne _ _ _ c hcs2
    rw [hT3c] at h
    have hold : (lookup T2.cells c).map Cell.vertexSlot = (lookup t.cells c).map Cell.vertexSlot := (hT2old c hc hcs2).1
    rw [h, hold]

end TDS

namespace TDS

/-- Witness for C6: inserting in the finite triangle (cell 1) of the
2-dimensional fixture yields 5 vertices and 6 full cells, with the new
vertex id 4. -/
theorem c6_insert_in_full_cell_witness :
    ∃ t4, insert_in_full_cell triangle2 1 = .ok (t4, 4) ∧
      number_of_vertices t4 = 5 ∧ number_of_full_cells t4 = 6 := by
  obtain ⟨t4, hrun, hnv, hnc, _⟩ :=
    c6_insert_in_full_cell triangle2 1
      (mkCell [some 1, some 2, some 3] [some 0, some 2, some 3] [0, 0, 0])
      (by decide) rfl (by decide) (by decide)
      (by
        intro i hi
        have h2 : slotList triangle2.dcur = [0, 1, 2] := by decide
        rw [h2] at hi
        fin_cases hi
        · exact ⟨1, VertexRec.mk (some 3), rfl, rfl⟩
        · exact ⟨2, VertexRec.mk (some 3), rfl, rfl⟩
        · exact ⟨3, VertexRec.mk (some 2), rfl, rfl⟩)
      (by
        intro i hi h1i
        have h2 : slotList triangle2.dcur = [0, 1, 2] := by decide
        rw [h2] at hi
        fin_cases hi
        · exact absurd h1i (by decide)
        · exact ⟨2, mkCell [some 0, some 1, some 3] [some 1, some 0, some 3] [1, 1, 2], rfl, rfl, by decide⟩
        · exact ⟨3, mkCell [some 0, some 2, some 1] [some 1, some 0, some 2] [2, 2, 2], rfl, rfl, by decide⟩)
      (by
        intro i hi h1i
        have h2 : slotList triangle2.dcur = [0, 1, 2] := by decide
        rw [h2] at hi
        fin_cases hi
        all_goals decide)
  exact ⟨t4, hrun, hnv, hnc⟩

end TDS
